import Mathlib

/-!
Verification of the dead-worker cleaner (`pkg/async/redis/cleaner.go`) and the
domain-entity store (`pkg/storage/store.go`) of the open-service-broker-azure
repository, via a shallow embedding in Lean 4.

The redis client is modelled as a pure state (`RStore`) holding the key/value
pairs (heartbeat keys), the lists (task queues) and the sets (worker set),
together with static fault-injection maps that let a store call report a
transport error (`Client`).  Cancellation (`context.Context`) is modelled as a
countdown: `some k` means the next `k` cancellation checkpoints report
"not cancelled" and every later one reports "cancelled"; `none` means the
context is never cancelled.  Loops are written with explicit fuel; running out
of fuel is reported by the distinguished outcome `Outcome.outOfFuel`, which the
Go code cannot produce (its loop simply keeps running), so a non-terminating
run of the Go loop is exactly a run that returns `outOfFuel` at every fuel.
-/

namespace Osba

/-- Keys of the shared redis store.  The repository derives queue and key names
from fixed, pairwise distinct prefixes plus (for per-worker keys) the worker
ID — `getHeartbeatKey`, `getActiveTaskQueueName`, `getWatchedTaskQueueName`
(these name-derivation helpers live outside the files under verification;
modelled from the spec's key-naming scheme: distinct roles never collide and
distinct worker IDs never collide within a role, which the separate
constructors capture).  Externally supplied names (the worker-set name and the
global pending/deferred queue names) enter through the `str` constructor. -/
inductive RKey where
  | str : String → RKey
  | heartbeat : String → RKey
  | active : String → RKey
  | watched : String → RKey
deriving DecidableEq

/-- Modelled from the spec: per-worker heartbeat key derivation. -/
def getHeartbeatKey (workerID : String) : RKey := RKey.heartbeat workerID

/-- Modelled from the spec: per-worker active task queue name derivation. -/
def getActiveTaskQueueName (workerID : String) : RKey := RKey.active workerID

/-- Modelled from the spec: per-worker watched task queue name derivation. -/
def getWatchedTaskQueueName (workerID : String) : RKey := RKey.watched workerID

/-- The shared redis state: string keys (`GET`/`SET`), lists (`RPOPLPUSH`)
and sets (`SMEMBERS`/`SREM`), each total over `RKey` with absent entries
represented by `none` / `[]`. -/
structure RStore where
  kv : RKey → Option String
  lists : RKey → List String
  sets : RKey → List String

def RStore.setList (s : RStore) (k : RKey) (l : List String) : RStore :=
  { s with lists := fun k2 => if k2 = k then l else s.lists k2 }

def RStore.eraseSet (s : RStore) (k : RKey) (m : String) : RStore :=
  { s with sets := fun k2 => if k2 = k then (s.sets k2).erase m else s.sets k2 }

/-- Result of a go-redis call: a value, the distinguished `redis.Nil`
not-found outcome, or a transport fault carrying an error message. -/
inductive RedisResult (α : Type) where
  | ok : α → RedisResult α
  | nil : RedisResult α
  | fault : String → RedisResult α
deriving DecidableEq

/-- The redis client: the store state plus static fault-injection maps.  A
fault entry makes the corresponding call return a transport error instead of
acting on the store; the maps are static, which is adequate because every
function under verification aborts on the first fault it sees. -/
structure Client where
  store : RStore
  getFaults : RKey → Option String
  moveFaults : RKey → RKey → Option String
  smembersNil : Bool
  smembersFault : Option String
  sremFaults : String → Option String
  sremNil : String → Bool

/-- `GET key` : `ok` the value, `nil` when the key is absent, or an injected
transport fault. -/
def Client.get (c : Client) (k : RKey) : RedisResult String :=
  match c.getFaults k with
  | some m => RedisResult.fault m
  | none =>
    match c.store.kv k with
    | some v => RedisResult.ok v
    | none => RedisResult.nil

/-- Pop the last (tail) element of a list, returning the remaining front and
the popped element. -/
def popLast {α : Type} : List α → Option (List α × α)
  | [] => none
  | [x] => some ([], x)
  | x :: y :: xs =>
    match popLast (y :: xs) with
    | none => none
    | some (ys, z) => some (x :: ys, z)

/-- `RPOPLPUSH src dst` : atomically pop the tail of `src` and push it onto
the head of `dst` (when `src = dst` this rotates the list, as redis documents);
`nil` when `src` is empty.  Modelled from the spec's ATOMIC-MOVE primitive. -/
def Client.rpoplpush (c : Client) (src dst : RKey) : RedisResult String × Client :=
  match c.moveFaults src dst with
  | some m => (RedisResult.fault m, c)
  | none =>
    match popLast (c.store.lists src) with
    | none => (RedisResult.nil, c)
    | some (front, x) =>
      let s1 := c.store.setList src front
      let s2 := s1.setList dst (x :: s1.lists dst)
      (RedisResult.ok x, { c with store := s2 })

/-- `SREM setKey m` : remove `m` from the set; `nil` models the defensive
`redis.Nil` ("member already absent") outcome that the cleaner tolerates. -/
def Client.srem (c : Client) (setKey : RKey) (m : String) : RedisResult Unit × Client :=
  match c.sremFaults m with
  | some msg => (RedisResult.fault msg, c)
  | none =>
    let c2 : Client := { c with store := c.store.eraseSet setKey m }
    if c.sremNil m then (RedisResult.nil, c2) else (RedisResult.ok (), c2)

/-- Cancellation model: `none` is a context that is never cancelled; `some k`
reports "not cancelled" at the next `k` checkpoints and "cancelled" at every
checkpoint after those.  `ctxCheck` is one `select { case <-ctx.Done() ... }`
checkpoint. -/
def ctxCheck : Option Nat → Bool × Option Nat
  | none => (false, none)
  | some 0 => (true, some 0)
  | some (k + 1) => (false, some k)

/-- Outcome of a cleaner operation: Go's `nil` error, the context's
cancellation error, a store error message, or fuel exhaustion (the embedding's
marker for a loop iteration count the chosen fuel could not cover). -/
inductive Outcome where
  | ok : Outcome
  | canceled : Outcome
  | fault : String → Outcome
  | outOfFuel : Outcome
deriving DecidableEq

/-- `defaultCleanWorkerQueue` (cleaner.go:90-115): loop that checks
cancellation, then `RPOPLPUSH src dst`; `redis.Nil` means the source is empty
and the drain succeeded; any other error is wrapped and surfaced.  The last
component counts completed moves. -/
def drainQueue (workerID : String) (src dst : RKey) :
    Nat → Option Nat → Client → Outcome × Option Nat × Client × Nat
  | 0, ctx, c => (Outcome.outOfFuel, ctx, c, 0)
  | fuel + 1, ctx, c =>
    match ctxCheck ctx with
    | (true, ctx1) => (Outcome.canceled, ctx1, c, 0)
    | (false, ctx1) =>
      match c.rpoplpush src dst with
      | (RedisResult.nil, c1) => (Outcome.ok, ctx1, c1, 0)
      | (RedisResult.fault m, c1) =>
        (Outcome.fault ("error cleaning up after dead worker " ++ workerID
          ++ " queue: " ++ m), ctx1, c1, 0)
      | (RedisResult.ok _, c1) =>
        match drainQueue workerID src dst fuel ctx1 c1 with
        | (o, ctx2, c2, n) => (o, ctx2, c2, n + 1)

/-- Result of processing one worker inside `defaultClean`'s loop: either the
whole sweep aborts with an outcome, or it continues with the next worker. -/
inductive StepRes where
  | abort : Outcome → Option Nat → Client → StepRes
  | next : Option Nat → Client → StepRes

/-- The body of `defaultClean`'s `for _, workerID := range workerIDs` loop
(cleaner.go:37-87): check the worker's heartbeat key; a live worker is skipped
(after a cancellation checkpoint); a transport fault aborts the sweep; a dead
worker has its active queue drained into the pending queue and its watched
queue into the deferred queue (the engine binds both `cleanActiveTaskQueue`
and `cleanWatchedTaskQueue` to `defaultCleanWorkerQueue`; modelled from the
spec, the wiring is outside the files under verification), then is removed
from the worker set, tolerating `redis.Nil` from `SREM`, followed by a
cancellation checkpoint. -/
def cleanWorkerStep (wsKey p q : RKey) (fuel : Nat) (w : String)
    (ctx : Option Nat) (c : Client) : StepRes :=
  match c.get (getHeartbeatKey w) with
  | RedisResult.ok _ =>
    match ctxCheck ctx with
    | (true, ctx1) => StepRes.abort Outcome.canceled ctx1 c
    | (false, ctx1) => StepRes.next ctx1 c
  | RedisResult.fault m =>
    StepRes.abort
      (Outcome.fault ("error checking health of worker " ++ w ++ ": " ++ m)) ctx c
  | RedisResult.nil =>
    match drainQueue w (getActiveTaskQueueName w) p fuel ctx c with
    | (Outcome.ok, ctx1, c1, _) =>
      match drainQueue w (getWatchedTaskQueueName w) q fuel ctx1 c1 with
      | (Outcome.ok, ctx2, c2, _) =>
        match c2.srem wsKey w with
        | (RedisResult.fault m, c3) =>
          StepRes.abort
            (Outcome.fault ("error removing dead worker " ++ w
              ++ " from worker set: " ++ m)) ctx2 c3
        | (_, c3) =>
          match ctxCheck ctx2 with
          | (true, ctx3) => StepRes.abort Outcome.canceled ctx3 c3
          | (false, ctx3) => StepRes.next ctx3 c3
      | (o, ctx2, c2, _) => StepRes.abort o ctx2 c2
    | (o, ctx1, c1, _) => StepRes.abort o ctx1 c1

/-- The worker loop of `defaultClean`, folding `cleanWorkerStep` over the
snapshot of worker IDs returned by `SMEMBERS`. -/
def cleanLoop (wsKey p q : RKey) (fuel : Nat) :
    List String → Option Nat → Client → Outcome × Option Nat × Client
  | [], ctx, c => (Outcome.ok, ctx, c)
  | w :: rest, ctx, c =>
    match cleanWorkerStep wsKey p q fuel w ctx c with
    | StepRes.abort o ctx1 c1 => (o, ctx1, c1)
    | StepRes.next ctx1 c1 => cleanLoop wsKey p q fuel rest ctx1 c1

/-- `defaultClean` (cleaner.go:25-88): take an `SMEMBERS` snapshot of the
worker set (`redis.Nil` is tolerated as an empty sweep, a transport fault is
wrapped and surfaced), then run the per-worker loop over the snapshot. -/
def clean (wsKey p q : RKey) (fuel : Nat) (ctx : Option Nat) (c : Client) :
    Outcome × Option Nat × Client :=
  if c.smembersNil then (Outcome.ok, ctx, c)
  else
    match c.smembersFault with
    | some m => (Outcome.fault ("error retrieving workers: " ++ m), ctx, c)
    | none => cleanLoop wsKey p q fuel (c.store.sets wsKey) ctx c

/-! ## The domain-entity store (`pkg/storage/store.go`) -/

/-- Keys of the storage redis instance: `getInstanceKey` renders
`instances:<id>` and `getBindingKey` renders `bindings:<id>` (store.go:126,
store.go:188); the distinct prefixes make the two families disjoint and each
family injective in the ID, which the constructors capture. -/
inductive SKey where
  | instanceKey : String → SKey
  | bindingKey : String → SKey
deriving DecidableEq

/-- A plan of a service in the catalog.  Modelled from the spec: the catalog
of record-kind definitions is supplied separately and is outside the files
under verification. -/
structure Plan where
  id : String
deriving DecidableEq

/-- A service in the catalog, holding its plans.  Modelled from the spec. -/
structure Service where
  id : String
  plans : List Plan
deriving DecidableEq

/-- `svc.GetPlan planID`: look the plan up by ID.  Modelled from the spec. -/
def Service.GetPlan (s : Service) (planID : String) : Option Plan :=
  s.plans.find? (fun p => p.id = planID)

/-- The catalog of services.  Modelled from the spec. -/
structure Catalog where
  services : List Service
deriving DecidableEq

/-- `catalog.GetService serviceID`: look the service up by ID.  Modelled from
the spec. -/
def Catalog.GetService (c : Catalog) (serviceID : String) : Option Service :=
  c.services.find? (fun s => s.id = serviceID)

/-- The fields of `service.Instance` the store consults (instance ID, service
ID, plan ID).  Modelled from the spec: the `service` package is outside the
files under verification. -/
structure Instance where
  instanceID : String
  serviceID : String
  planID : String
deriving DecidableEq

def Instance.empty : Instance := { instanceID := "", serviceID := "", planID := "" }

/-- The fields of `service.Binding` the store consults.  Modelled from the
spec. -/
structure Binding where
  bindingID : String
  serviceID : String
deriving DecidableEq

def Binding.empty : Binding := { bindingID := "", serviceID := "" }

/-- A value persisted under a storage key: a serialized instance, a serialized
binding, or bytes that decode to neither.  The codec is reversible (the spec's
injected reversible transform), so serialization followed by decoding is
modelled as the identity on well-formed records. -/
inductive StoredVal where
  | inst : Instance → StoredVal
  | bind : Binding → StoredVal
  | garbage : String → StoredVal
deriving DecidableEq

/-- `service.NewInstanceFromJSON` composed with the codec: succeeds exactly on
serialized instances.  Modelled from the spec's reversible transform. -/
def decodeInstance : StoredVal → Except String Instance
  | StoredVal.inst r => Except.ok r
  | _ => Except.error "error decoding instance"

/-- `service.NewBindingFromJSON` composed with the codec.  Modelled from the
spec's reversible transform. -/
def decodeBinding : StoredVal → Except String Binding
  | StoredVal.bind r => Except.ok r
  | _ => Except.error "error decoding binding"

/-- The storage redis state (the store's `GET`/`SET`/`DEL` key space). -/
structure SStore where
  kv : SKey → Option StoredVal

def SStore.del (s : SStore) (k : SKey) : SStore :=
  ⟨fun k2 => if k2 = k then none else s.kv k2⟩

/-- `store.GetInstance` (store.go:63-109): `redis.Nil` on the `GET` yields
`(zero, false, nil)`; a decode failure yields the error; then the instance's
service ID is resolved against the catalog and its plan ID against the
service, each missing reference yielding `found = false` and an error;
otherwise the hydrated instance with `found = true` and no error.  `GET` does
not mutate the store, so the state is not returned. -/
def GetInstance (cat : Catalog) (st : SStore) (instanceID : String) :
    Instance × Bool × Option String :=
  match st.kv (SKey.instanceKey instanceID) with
  | none => (Instance.empty, false, none)
  | some v =>
    match decodeInstance v with
    | Except.error e => (Instance.empty, false, some e)
    | Except.ok inst =>
      match cat.GetService inst.serviceID with
      | none =>
        (inst, false,
          some ("service not found in catalog for service ID " ++ inst.serviceID))
      | some svc =>
        match svc.GetPlan inst.planID with
        | none =>
          (inst, false,
            some ("plan not found for planID " ++ inst.planID ++ " for service "
              ++ inst.serviceID ++ " in the catalog"))
        | some _ => (inst, true, none)

/-- `store.GetBinding` (store.go:139-172): like `GetInstance` but resolving
only the binding's service ID (no plan lookup). -/
def GetBinding (cat : Catalog) (st : SStore) (bindingID : String) :
    Binding × Bool × Option String :=
  match st.kv (SKey.bindingKey bindingID) with
  | none => (Binding.empty, false, none)
  | some v =>
    match decodeBinding v with
    | Except.error e => (Binding.empty, false, some e)
    | Except.ok bnd =>
      match cat.GetService bnd.serviceID with
      | none =>
        (bnd, false,
          some ("service not found in catalog for service ID " ++ bnd.serviceID))
      | some _ => (bnd, true, none)

/-- `store.DeleteInstance` (store.go:111-123): `GET` first; `redis.Nil` yields
`(false, nil)` without touching the store; otherwise `DEL` and report
`(true, nil)`. -/
def DeleteInstance (st : SStore) (instanceID : String) :
    (Bool × Option String) × SStore :=
  match st.kv (SKey.instanceKey instanceID) with
  | none => ((false, none), st)
  | some _ => ((true, none), st.del (SKey.instanceKey instanceID))

/-- `store.DeleteBinding` (store.go:173-185): like `DeleteInstance` for
bindings. -/
def DeleteBinding (st : SStore) (bindingID : String) :
    (Bool × Option String) × SStore :=
  match st.kv (SKey.bindingKey bindingID) with
  | none => ((false, none), st)
  | some _ => ((true, none), st.del (SKey.bindingKey bindingID))

/-! ## Concrete states used by the witnesses -/

/-- A fault-free client state: worker set `ws = [w1, w2]`; `w1` is dead
(no heartbeat key) with active queue `[t1, t2]` and watched queue `[t3]`;
`w2` is alive with active queue `[t4]`; the global pending queue `p` already
holds `[p0]` and the deferred queue `q` is empty. -/
def demoClient : Client where
  store :=
    { kv := fun k => if k = RKey.heartbeat "w2" then some "hb" else none
      lists := fun k =>
        if k = RKey.active "w1" then ["t1", "t2"]
        else if k = RKey.watched "w1" then ["t3"]
        else if k = RKey.active "w2" then ["t4"]
        else if k = RKey.str "p" then ["p0"]
        else []
      sets := fun k => if k = RKey.str "ws" then ["w1", "w2"] else [] }
  getFaults := fun _ => none
  moveFaults := fun _ _ => none
  smembersNil := false
  smembersFault := none
  sremFaults := fun _ => none
  sremNil := fun _ => false

/-- `demoClient` with a transport fault injected on the heartbeat `GET` of
`w1`. -/
def demoClientHbFault : Client :=
  { demoClient with
    getFaults := fun k => if k = RKey.heartbeat "w1" then some "boom" else none }

/-- `demoClient` with a transport fault injected on the `RPOPLPUSH` that
drains `w1`'s active queue into the pending queue, and with `SREM` reporting
`w1` as already absent. -/
def demoClientDrainFault : Client :=
  { demoClient with
    moveFaults := fun src dst =>
      if src = RKey.active "w1" ∧ dst = RKey.str "p" then some "moveboom" else none
    sremNil := fun w => w = "w1" }

/-- A client whose only content is the list `s = [t]`, used to drain a queue
into itself. -/
def rotClient : Client where
  store :=
    { kv := fun _ => none
      lists := fun k => if k = RKey.str "s" then ["t"] else []
      sets := fun _ => [] }
  getFaults := fun _ => none
  moveFaults := fun _ _ => none
  smembersNil := false
  smembersFault := none
  sremFaults := fun _ => none
  sremNil := fun _ => false

/-- A client with source list `s = [a, b]` and destination list `d = [c]`,
used by the drain witnesses. -/
def drainDemoClient : Client where
  store :=
    { kv := fun _ => none
      lists := fun k =>
        if k = RKey.str "s" then ["a", "b"]
        else if k = RKey.str "d" then ["c"]
        else []
      sets := fun _ => [] }
  getFaults := fun _ => none
  moveFaults := fun _ _ => none
  smembersNil := false
  smembersFault := none
  sremFaults := fun _ => none
  sremNil := fun _ => false

/-- A demo catalog with one service `svc1` offering one plan `plan1`. -/
def demoCatalog : Catalog := ⟨[⟨"svc1", [⟨"plan1"⟩]⟩]⟩

/-- An instance record referencing a service absent from `demoCatalog`. -/
def demoInstGhostSvc : Instance :=
  { instanceID := "i1", serviceID := "ghost", planID := "plan1" }

/-- An instance record referencing `svc1` with a plan absent from it. -/
def demoInstGhostPlan : Instance :=
  { instanceID := "i2", serviceID := "svc1", planID := "ghostplan" }

/-- A binding record referencing a service absent from `demoCatalog`. -/
def demoBindGhost : Binding := { bindingID := "b1", serviceID := "ghost" }

/-- A storage state holding one instance under `i1` that references the
unknown service `ghost`, one instance under `i2` referencing `svc1` with the
unknown plan `ghostplan`, and one binding under `b1` referencing `ghost`. -/
def demoSStore : SStore :=
  ⟨fun k =>
    if k = SKey.instanceKey "i1" then some (StoredVal.inst demoInstGhostSvc)
    else if k = SKey.instanceKey "i2" then some (StoredVal.inst demoInstGhostPlan)
    else if k = SKey.bindingKey "b1" then some (StoredVal.bind demoBindGhost)
    else none⟩

/-- The empty storage state. -/
def emptySStore : SStore := ⟨fun _ => none⟩

/-- Replace only the lists of a client's store (every redis list operation
leaves the keys, the sets and the fault configuration untouched; this helper
lets that be said once). -/
def Client.withLists (c : Client) (f : RKey → List String) : Client :=
  { c with store := { c.store with lists := f } }

/-- Replace only the sets of a client's store. -/
def Client.withSets (c : Client) (f : RKey → List String) : Client :=
  { c with store := { c.store with sets := f } }

/-- The client carried by a `StepRes`. -/
def StepRes.client : StepRes → Client
  | StepRes.abort _ _ c => c
  | StepRes.next _ c => c

/-! ## Basic lemmas about the store helpers -/

@[simp] theorem withLists_store_kv (c : Client) (f : RKey → List String) :
    (c.withLists f).store.kv = c.store.kv := rfl

@[simp] theorem withLists_store_sets (c : Client) (f : RKey → List String) :
    (c.withLists f).store.sets = c.store.sets := rfl

@[simp] theorem withLists_store_lists (c : Client) (f : RKey → List String) :
    (c.withLists f).store.lists = f := rfl

@[simp] theorem withLists_getFaults (c : Client) (f : RKey → List String) :
    (c.withLists f).getFaults = c.getFaults := rfl

@[simp] theorem withLists_moveFaults (c : Client) (f : RKey → List String) :
    (c.withLists f).moveFaults = c.moveFaults := rfl

@[simp] theorem withLists_smembersNil (c : Client) (f : RKey → List String) :
    (c.withLists f).smembersNil = c.smembersNil := rfl

@[simp] theorem withLists_smembersFault (c : Client) (f : RKey → List String) :
    (c.withLists f).smembersFault = c.smembersFault := rfl

@[simp] theorem withLists_sremFaults (c : Client) (f : RKey → List String) :
    (c.withLists f).sremFaults = c.sremFaults := rfl

@[simp] theorem withLists_sremNil (c : Client) (f : RKey → List String) :
    (c.withLists f).sremNil = c.sremNil := rfl

@[simp] theorem withLists_self (c : Client) : c.withLists c.store.lists = c := rfl

theorem withLists_withLists (c : Client) (f g : RKey → List String) :
    (c.withLists f).withLists g = c.withLists g := rfl

@[simp] theorem setList_lists_eq (s : RStore) (k : RKey) (l : List String) :
    (s.setList k l).lists k = l := by
  simp [RStore.setList]

theorem setList_lists_ne (s : RStore) (k k2 : RKey) (l : List String) (h : k2 ≠ k) :
    (s.setList k l).lists k2 = s.lists k2 := by
  simp [RStore.setList, h]

theorem popLast_eq_none {α : Type} : ∀ {l : List α}, popLast l = none → l = []
  | [], _ => rfl
  | [x], h => by simp [popLast] at h
  | x :: y :: xs, h => by
    unfold popLast at h
    cases hp : popLast (y :: xs) with
    | none => exact absurd (popLast_eq_none hp) (by simp)
    | some p => rw [hp] at h; cases h

theorem popLast_eq_some {α : Type} :
    ∀ {l : List α} {ys : List α} {x : α}, popLast l = some (ys, x) → l = ys ++ [x]
  | [], _, _, h => by cases h
  | [a], ys, x, h => by
    simp [popLast] at h
    simp [h.1, h.2]
  | a :: b :: xs, ys, x, h => by
    unfold popLast at h
    cases hp : popLast (b :: xs) with
    | none => rw [hp] at h; cases h
    | some p =>
      obtain ⟨ys2, x2⟩ := p
      rw [hp] at h
      cases h
      have h2 := popLast_eq_some hp
      simp [h2]

/-! ## Lemmas about the primitive redis operations -/

theorem rpoplpush_shape (c : Client) (src dst : RKey) :
    ∀ {r : RedisResult String} {c1 : Client}, c.rpoplpush src dst = (r, c1) →
      c1 = c.withLists c1.store.lists := by
  intro r c1 h
  unfold Client.rpoplpush at h
  cases hmf : c.moveFaults src dst with
  | some m => rw [hmf] at h; cases h; rfl
  | none =>
    rw [hmf] at h
    cases hp : popLast (c.store.lists src) with
    | none => rw [hp] at h; cases h; rfl
    | some fx => rw [hp] at h; cases h; rfl

theorem rpoplpush_fault (c : Client) (src dst : RKey) {m : String}
    (h : c.moveFaults src dst = some m) :
    c.rpoplpush src dst = (RedisResult.fault m, c) := by
  unfold Client.rpoplpush
  rw [h]

theorem rpoplpush_nil (c : Client) (src dst : RKey)
    (hm : c.moveFaults src dst = none) (hl : c.store.lists src = []) :
    c.rpoplpush src dst = (RedisResult.nil, c) := by
  unfold Client.rpoplpush
  rw [hm, hl]
  rfl

theorem srem_shape (c : Client) (k : RKey) (m : String) :
    ∀ {r : RedisResult Unit} {c1 : Client}, c.srem k m = (r, c1) →
      c1 = c.withSets c1.store.sets := by
  intro r c1 h
  unfold Client.srem at h
  cases hsf : c.sremFaults m with
  | some msg => rw [hsf] at h; cases h; rfl
  | none =>
    rw [hsf] at h
    by_cases hn : c.sremNil m
    · rw [if_pos hn] at h; cases h; rfl
    · rw [if_neg hn] at h; cases h; rfl

theorem srem_fault_iff (c : Client) (k : RKey) (m : String) {r : RedisResult Unit}
    {c1 : Client} (h : c.srem k m = (r, c1)) :
    (∀ msg, r = RedisResult.fault msg → c.sremFaults m = some msg ∧ c1 = c) ∧
    (c.sremFaults m = none →
      c1 = { c with store := c.store.eraseSet k m } ∧ ∀ msg, r ≠ RedisResult.fault msg) := by
  unfold Client.srem at h
  cases hsf : c.sremFaults m with
  | some msg =>
    rw [hsf] at h; cases h
    constructor
    · intro msg2 h2
      cases h2
      exact ⟨rfl, rfl⟩
    · intro h2
      cases h2
  | none =>
    rw [hsf] at h
    by_cases hn : c.sremNil m
    · rw [if_pos hn] at h; cases h
      constructor
      · intro msg h2; cases h2
      · intro _
        exact ⟨rfl, fun msg h2 => by cases h2⟩
    · rw [if_neg hn] at h; cases h
      constructor
      · intro msg h2; cases h2
      · intro _
        exact ⟨rfl, fun msg h2 => by cases h2⟩

theorem eraseSet_sets_eq (s : RStore) (k : RKey) (m : String) :
    (s.eraseSet k m).sets k = (s.sets k).erase m := by
  simp [RStore.eraseSet]

theorem eraseSet_sets_ne (s : RStore) (k k2 : RKey) (m : String) (h : k2 ≠ k) :
    (s.eraseSet k m).sets k2 = s.sets k2 := by
  simp [RStore.eraseSet, h]

@[simp] theorem eraseSet_lists (s : RStore) (k : RKey) (m : String) :
    (s.eraseSet k m).lists = s.lists := rfl

@[simp] theorem eraseSet_kv (s : RStore) (k : RKey) (m : String) :
    (s.eraseSet k m).kv = s.kv := rfl

theorem get_ok_of_alive (c : Client) (k : RKey) {v : String}
    (hgf : c.getFaults k = none) (hkv : c.store.kv k = some v) :
    c.get k = RedisResult.ok v := by
  unfold Client.get
  rw [hgf, hkv]

theorem get_nil_of_dead (c : Client) (k : RKey)
    (hgf : c.getFaults k = none) (hkv : c.store.kv k = none) :
    c.get k = RedisResult.nil := by
  unfold Client.get
  rw [hgf, hkv]

theorem get_fault_of_fault (c : Client) (k : RKey) {m : String}
    (hgf : c.getFaults k = some m) : c.get k = RedisResult.fault m := by
  unfold Client.get
  rw [hgf]

theorem rpoplpush_eq_nil (c : Client) (src dst : RKey) {c1 : Client}
    (h : c.rpoplpush src dst = (RedisResult.nil, c1)) :
    c1 = c ∧ c.store.lists src = [] := by
  unfold Client.rpoplpush at h
  cases hmf : c.moveFaults src dst with
  | some m => rw [hmf] at h; cases h
  | none =>
    rw [hmf] at h
    cases hp : popLast (c.store.lists src) with
    | none => rw [hp] at h; cases h; exact ⟨rfl, popLast_eq_none hp⟩
    | some fx => rw [hp] at h; cases h

theorem rpoplpush_eq_fault (c : Client) (src dst : RKey) {m : String} {c1 : Client}
    (h : c.rpoplpush src dst = (RedisResult.fault m, c1)) :
    c1 = c ∧ c.moveFaults src dst = some m := by
  unfold Client.rpoplpush at h
  cases hmf : c.moveFaults src dst with
  | some m2 => rw [hmf] at h; cases h; exact ⟨rfl, rfl⟩
  | none =>
    rw [hmf] at h
    cases hp : popLast (c.store.lists src) with
    | none => rw [hp] at h; cases h
    | some fx => rw [hp] at h; cases h

theorem rpoplpush_ok (c : Client) (src dst : RKey) {x : String} {c1 : Client}
    (h : c.rpoplpush src dst = (RedisResult.ok x, c1)) :
    ∃ front, popLast (c.store.lists src) = some (front, x) ∧
      (∀ k, k ≠ src → k ≠ dst → c1.store.lists k = c.store.lists k) ∧
      (src ≠ dst → c1.store.lists src = front ∧ c1.store.lists dst = x :: c.store.lists dst) ∧
      (∀ k, k ≠ src → ∀ y, y ∈ c.store.lists k → y ∈ c1.store.lists k) := by
  unfold Client.rpoplpush at h
  cases hmf : c.moveFaults src dst with
  | some m => rw [hmf] at h; cases h
  | none =>
    rw [hmf] at h
    rcases hp : popLast (c.store.lists src) with _ | ⟨front0, x0⟩
    · rw [hp] at h; cases h
    · rw [hp] at h
      cases h
      refine ⟨front0, rfl, ?_, ?_, ?_⟩
      · intro k hks hkd
        show ((c.store.setList src front0).setList dst _).lists k = _
        rw [setList_lists_ne _ _ _ _ hkd, setList_lists_ne _ _ _ _ hks]
      · intro hsd
        constructor
        · show ((c.store.setList src front0).setList dst _).lists src = _
          rw [setList_lists_ne _ _ _ _ (fun h2 => hsd h2), setList_lists_eq]
        · show ((c.store.setList src front0).setList dst _).lists dst = _
          rw [setList_lists_eq, setList_lists_ne _ _ _ _ (fun h2 => hsd h2.symm)]
      · intro k hks y hy
        show y ∈ ((c.store.setList src front0).setList dst _).lists k
        by_cases hkd : k = dst
        · subst hkd
          rw [setList_lists_eq, setList_lists_ne _ _ _ _ hks]
          exact List.mem_cons_of_mem _ hy
        · rw [setList_lists_ne _ _ _ _ hkd, setList_lists_ne _ _ _ _ hks]
          exact hy

theorem rpoplpush_ok_shape (c : Client) (src dst : RKey) {x : String} {c1 : Client}
    (h : c.rpoplpush src dst = (RedisResult.ok x, c1)) :
    c1 = c.withLists c1.store.lists :=
  rpoplpush_shape c src dst h

/-! ## Step equations for `drainQueue` -/

theorem drain_zero (w : String) (src dst : RKey) (ctx : Option Nat) (c : Client) :
    drainQueue w src dst 0 ctx c = (Outcome.outOfFuel, ctx, c, 0) := rfl

theorem drain_succ_canceled {ctx ctx1 : Option Nat} (w : String) (src dst : RKey)
    (f : Nat) (c : Client) (hcc : ctxCheck ctx = (true, ctx1)) :
    drainQueue w src dst (f + 1) ctx c = (Outcome.canceled, ctx1, c, 0) := by
  unfold drainQueue
  rw [hcc]

theorem drain_succ_nil {ctx ctx1 : Option Nat} {c c1 : Client} (w : String)
    (src dst : RKey) (f : Nat) (hcc : ctxCheck ctx = (false, ctx1))
    (hm : c.rpoplpush src dst = (RedisResult.nil, c1)) :
    drainQueue w src dst (f + 1) ctx c = (Outcome.ok, ctx1, c1, 0) := by
  unfold drainQueue
  rw [hcc, hm]

theorem drain_succ_fault {ctx ctx1 : Option Nat} {c c1 : Client} {m : String}
    (w : String) (src dst : RKey) (f : Nat) (hcc : ctxCheck ctx = (false, ctx1))
    (hm : c.rpoplpush src dst = (RedisResult.fault m, c1)) :
    drainQueue w src dst (f + 1) ctx c =
      (Outcome.fault ("error cleaning up after dead worker " ++ w ++ " queue: " ++ m),
        ctx1, c1, 0) := by
  unfold drainQueue
  rw [hcc, hm]

theorem drain_succ_move {ctx ctx1 ctx2 : Option Nat} {c c1 c2 : Client} {x : String}
    {o : Outcome} {n : Nat} (w : String) (src dst : RKey) (f : Nat)
    (hcc : ctxCheck ctx = (false, ctx1))
    (hm : c.rpoplpush src dst = (RedisResult.ok x, c1))
    (hrec : drainQueue w src dst f ctx1 c1 = (o, ctx2, c2, n)) :
    drainQueue w src dst (f + 1) ctx c = (o, ctx2, c2, n + 1) := by
  unfold drainQueue
  simp only [hcc, hm, hrec]

/-! ## Lemmas about `drainQueue` -/

theorem drain_shape (w : String) (src dst : RKey) :
    ∀ (fuel : Nat) (ctx : Option Nat) (c : Client) {o : Outcome} {ctx2 : Option Nat}
      {c2 : Client} {n : Nat},
      drainQueue w src dst fuel ctx c = (o, ctx2, c2, n) →
      c2 = c.withLists c2.store.lists := by
  intro fuel
  induction fuel with
  | zero =>
    intro ctx c o ctx2 c2 n h
    rw [drain_zero] at h
    cases h
    rfl
  | succ f ih =>
    intro ctx c o ctx2 c2 n h
    rcases hcc : ctxCheck ctx with ⟨canc, ctx1⟩
    cases canc with
    | true =>
      rw [drain_succ_canceled w src dst f c hcc] at h
      cases h
      rfl
    | false =>
      rcases hm : c.rpoplpush src dst with ⟨r, c1⟩
      cases r with
      | nil =>
        rw [drain_succ_nil w src dst f hcc hm] at h
        cases h
        obtain ⟨hceq, -⟩ := rpoplpush_eq_nil c src dst hm
        rw [hceq, withLists_self]
      | fault m =>
        rw [drain_succ_fault w src dst f hcc hm] at h
        cases h
        obtain ⟨hceq, -⟩ := rpoplpush_eq_fault c src dst hm
        rw [hceq, withLists_self]
      | ok x =>
        rcases hrec : drainQueue w src dst f ctx1 c1 with ⟨o3, ctx3, c3, n3⟩
        rw [drain_succ_move w src dst f hcc hm hrec] at h
        cases h
        have hc1 := rpoplpush_ok_shape c src dst hm
        have hc3 := ih ctx1 c1 hrec
        refine hc3.trans ?_
        rw [hc1, withLists_withLists]

theorem drain_frame (w : String) (src dst : RKey) :
    ∀ (fuel : Nat) (ctx : Option Nat) (c : Client) {o : Outcome} {ctx2 : Option Nat}
      {c2 : Client} {n : Nat},
      drainQueue w src dst fuel ctx c = (o, ctx2, c2, n) →
      ∀ k, k ≠ src → k ≠ dst → c2.store.lists k = c.store.lists k := by
  intro fuel
  induction fuel with
  | zero =>
    intro ctx c o ctx2 c2 n h k _ _
    rw [drain_zero] at h
    cases h
    rfl
  | succ f ih =>
    intro ctx c o ctx2 c2 n h k hks hkd
    rcases hcc : ctxCheck ctx with ⟨canc, ctx1⟩
    cases canc with
    | true =>
      rw [drain_succ_canceled w src dst f c hcc] at h
      cases h
      rfl
    | false =>
      rcases hm : c.rpoplpush src dst with ⟨r, c1⟩
      cases r with
      | nil =>
        rw [drain_succ_nil w src dst f hcc hm] at h
        cases h
        obtain ⟨hceq, -⟩ := rpoplpush_eq_nil c src dst hm
        rw [hceq]
      | fault m =>
        rw [drain_succ_fault w src dst f hcc hm] at h
        cases h
        obtain ⟨hceq, -⟩ := rpoplpush_eq_fault c src dst hm
        rw [hceq]
      | ok x =>
        rcases hrec : drainQueue w src dst f ctx1 c1 with ⟨o3, ctx3, c3, n3⟩
        rw [drain_succ_move w src dst f hcc hm hrec] at h
        cases h
        obtain ⟨front, -, hfr, -, -⟩ := rpoplpush_ok c src dst hm
        rw [ih ctx1 c1 hrec k hks hkd, hfr k hks hkd]

theorem drain_mono (w : String) (src dst : RKey) :
    ∀ (fuel : Nat) (ctx : Option Nat) (c : Client) {o : Outcome} {ctx2 : Option Nat}
      {c2 : Client} {n : Nat},
      drainQueue w src dst fuel ctx c = (o, ctx2, c2, n) →
      ∀ k, k ≠ src → ∀ y, y ∈ c.store.lists k → y ∈ c2.store.lists k := by
  intro fuel
  induction fuel with
  | zero =>
    intro ctx c o ctx2 c2 n h k _ y hy
    rw [drain_zero] at h
    cases h
    exact hy
  | succ f ih =>
    intro ctx c o ctx2 c2 n h k hks y hy
    rcases hcc : ctxCheck ctx with ⟨canc, ctx1⟩
    cases canc with
    | true =>
      rw [drain_succ_canceled w src dst f c hcc] at h
      cases h
      exact hy
    | false =>
      rcases hm : c.rpoplpush src dst with ⟨r, c1⟩
      cases r with
      | nil =>
        rw [drain_succ_nil w src dst f hcc hm] at h
        cases h
        obtain ⟨hceq, -⟩ := rpoplpush_eq_nil c src dst hm
        rw [hceq]
        exact hy
      | fault m =>
        rw [drain_succ_fault w src dst f hcc hm] at h
        cases h
        obtain ⟨hceq, -⟩ := rpoplpush_eq_fault c src dst hm
        rw [hceq]
        exact hy
      | ok x =>
        rcases hrec : drainQueue w src dst f ctx1 c1 with ⟨o3, ctx3, c3, n3⟩
        rw [drain_succ_move w src dst f hcc hm hrec] at h
        cases h
        obtain ⟨front, -, -, -, hmono⟩ := rpoplpush_ok c src dst hm
        exact ih ctx1 c1 hrec k hks y (hmono k hks y hy)

theorem drain_decomp (w : String) (src dst : RKey) (hsd : src ≠ dst) :
    ∀ (fuel : Nat) (ctx : Option Nat) (c : Client) {o : Outcome} {ctx2 : Option Nat}
      {c2 : Client} {n : Nat},
      drainQueue w src dst fuel ctx c = (o, ctx2, c2, n) →
      ∃ P Q, c.store.lists src = P ++ Q ∧ c2.store.lists src = P ∧
        c2.store.lists dst = Q ++ c.store.lists dst ∧ n = Q.length := by
  intro fuel
  induction fuel with
  | zero =>
    intro ctx c o ctx2 c2 n h
    rw [drain_zero] at h
    cases h
    exact ⟨c.store.lists src, [], by simp, rfl, by simp, rfl⟩
  | succ f ih =>
    intro ctx c o ctx2 c2 n h
    rcases hcc : ctxCheck ctx with ⟨canc, ctx1⟩
    cases canc with
    | true =>
      rw [drain_succ_canceled w src dst f c hcc] at h
      cases h
      exact ⟨c.store.lists src, [], by simp, rfl, by simp, rfl⟩
    | false =>
      rcases hm : c.rpoplpush src dst with ⟨r, c1⟩
      cases r with
      | nil =>
        rw [drain_succ_nil w src dst f hcc hm] at h
        cases h
        obtain ⟨hceq, -⟩ := rpoplpush_eq_nil c src dst hm
        exact ⟨c.store.lists src, [], by simp, by rw [hceq], by rw [hceq]; simp, rfl⟩
      | fault m =>
        rw [drain_succ_fault w src dst f hcc hm] at h
        cases h
        obtain ⟨hceq, -⟩ := rpoplpush_eq_fault c src dst hm
        exact ⟨c.store.lists src, [], by simp, by rw [hceq], by rw [hceq]; simp, rfl⟩
      | ok x =>
        rcases hrec : drainQueue w src dst f ctx1 c1 with ⟨o3, ctx3, c3, n3⟩
        rw [drain_succ_move w src dst f hcc hm hrec] at h
        cases h
        obtain ⟨front, hpop, -, hsdc, -⟩ := rpoplpush_ok c src dst hm
        obtain ⟨hsrc1, hdst1⟩ := hsdc hsd
        obtain ⟨P, Q, hPQ, hP, hQ, hn⟩ := ih ctx1 c1 hrec
        refine ⟨P, Q ++ [x], ?_, hP, ?_, ?_⟩
        · rw [hsrc1] at hPQ
          rw [popLast_eq_some hpop, hPQ, List.append_assoc]
        · rw [hQ, hdst1, List.append_assoc]
          rfl
        · rw [hn]
          simp

theorem drain_ok_src_empty (w : String) (src dst : RKey) :
    ∀ (fuel : Nat) (ctx : Option Nat) (c : Client) {ctx2 : Option Nat}
      {c2 : Client} {n : Nat},
      drainQueue w src dst fuel ctx c = (Outcome.ok, ctx2, c2, n) →
      c2.store.lists src = [] := by
  intro fuel
  induction fuel with
  | zero =>
    intro ctx c ctx2 c2 n h
    rw [drain_zero] at h
    cases h
  | succ f ih =>
    intro ctx c ctx2 c2 n h
    rcases hcc : ctxCheck ctx with ⟨canc, ctx1⟩
    cases canc with
    | true =>
      rw [drain_succ_canceled w src dst f c hcc] at h
      cases h
    | false =>
      rcases hm : c.rpoplpush src dst with ⟨r, c1⟩
      cases r with
      | nil =>
        rw [drain_succ_nil w src dst f hcc hm] at h
        cases h
        obtain ⟨hceq, hsrc⟩ := rpoplpush_eq_nil c src dst hm
        rw [hceq]
        exact hsrc
      | fault m =>
        rw [drain_succ_fault w src dst f hcc hm] at h
        cases h
      | ok x =>
        rcases hrec : drainQueue w src dst f ctx1 c1 with ⟨o3, ctx3, c3, n3⟩
        rw [drain_succ_move w src dst f hcc hm hrec] at h
        cases h
        exact ih ctx1 c1 hrec

theorem drain_ok (w : String) (src dst : RKey) (hsd : src ≠ dst) :
    ∀ (fuel : Nat) (ctx : Option Nat) (c : Client) {ctx2 : Option Nat}
      {c2 : Client} {n : Nat},
      drainQueue w src dst fuel ctx c = (Outcome.ok, ctx2, c2, n) →
      c2.store.lists src = [] ∧
      c2.store.lists dst = c.store.lists src ++ c.store.lists dst ∧
      n = (c.store.lists src).length := by
  intro fuel ctx c ctx2 c2 n h
  obtain ⟨P, Q, hPQ, hP, hQ, hn⟩ := drain_decomp w src dst hsd fuel ctx c h
  have hPnil : P = [] := by
    rw [drain_ok_src_empty w src dst fuel ctx c h] at hP
    exact hP.symm
  subst hPnil
  simp only [List.nil_append] at hPQ
  subst hPQ
  exact ⟨drain_ok_src_empty w src dst fuel ctx c h, hQ, hn⟩

theorem drain_empty_src (w : String) (src dst : RKey) :
    ∀ (fuel : Nat) (ctx : Option Nat) (c : Client) {o : Outcome} {ctx2 : Option Nat}
      {c2 : Client} {n : Nat},
      c.store.lists src = [] →
      drainQueue w src dst fuel ctx c = (o, ctx2, c2, n) →
      c2 = c ∧ n = 0 := by
  intro fuel ctx c o ctx2 c2 n hl h
  cases fuel with
  | zero =>
    rw [drain_zero] at h
    cases h
    exact ⟨rfl, rfl⟩
  | succ f =>
    rcases hcc : ctxCheck ctx with ⟨canc, ctx1⟩
    cases canc with
    | true =>
      rw [drain_succ_canceled w src dst f c hcc] at h
      cases h
      exact ⟨rfl, rfl⟩
    | false =>
      cases hmf : c.moveFaults src dst with
      | some m =>
        rw [drain_succ_fault w src dst f hcc (rpoplpush_fault c src dst hmf)] at h
        cases h
        exact ⟨rfl, rfl⟩
      | none =>
        rw [drain_succ_nil w src dst f hcc (rpoplpush_nil c src dst hmf hl)] at h
        cases h
        exact ⟨rfl, rfl⟩

theorem drain_terminates_aux (w : String) (src dst : RKey) (hsd : src ≠ dst) :
    ∀ (fuel : Nat) (c : Client),
      c.moveFaults src dst = none →
      (c.store.lists src).length < fuel →
      ∃ c2, drainQueue w src dst fuel none c =
        (Outcome.ok, none, c2, (c.store.lists src).length) := by
  intro fuel
  induction fuel with
  | zero =>
    intro c _ hlen
    exact absurd hlen (Nat.not_lt_zero _)
  | succ f ih =>
    intro c hmf hlen
    have hcc : ctxCheck none = (false, none) := rfl
    rcases hp : popLast (c.store.lists src) with _ | ⟨front0, x0⟩
    · have hl := popLast_eq_none hp
      refine ⟨c, ?_⟩
      rw [drain_succ_nil w src dst f hcc (rpoplpush_nil c src dst hmf hl), hl]
      rfl
    · rcases hm : c.rpoplpush src dst with ⟨r, c1⟩
      have hr : r = RedisResult.ok x0 := by
        unfold Client.rpoplpush at hm
        rw [hmf, hp] at hm
        cases hm
        rfl
      subst hr
      obtain ⟨front, hpop, -, hsdc, -⟩ := rpoplpush_ok c src dst hm
      rw [hp] at hpop
      have hfr : front = front0 := by
        cases hpop
        rfl
      obtain ⟨hsrc1, -⟩ := hsdc hsd
      have hlist : c.store.lists src = front0 ++ [x0] := popLast_eq_some hp
      have hlen1 : (c1.store.lists src).length < f := by
        rw [hsrc1, hfr]
        rw [hlist] at hlen
        simp at hlen
        omega
      have hmf1 : c1.moveFaults src dst = none := by
        rw [rpoplpush_ok_shape c src dst hm, withLists_moveFaults]
        exact hmf
      obtain ⟨c2, hc2⟩ := ih c1 hmf1 hlen1
      refine ⟨c2, ?_⟩
      rw [drain_succ_move w src dst f hcc hm hc2]
      have : (c1.store.lists src).length + 1 = (c.store.lists src).length := by
        rw [hsrc1, hfr, hlist]
        simp
      rw [this]

/-! ## Step equations and inversion for `cleanWorkerStep` -/

theorem cleanLoop_nil_eq (wsKey p q : RKey) (fuel : Nat) (ctx : Option Nat) (c : Client) :
    cleanLoop wsKey p q fuel [] ctx c = (Outcome.ok, ctx, c) := rfl

theorem cleanLoop_cons_abort {o : Outcome} {ctx ctx1 : Option Nat} {c c1 : Client}
    (wsKey p q : RKey) (fuel : Nat) (w : String) (rest : List String)
    (hstep : cleanWorkerStep wsKey p q fuel w ctx c = StepRes.abort o ctx1 c1) :
    cleanLoop wsKey p q fuel (w :: rest) ctx c = (o, ctx1, c1) := by
  unfold cleanLoop
  rw [hstep]

theorem cleanLoop_cons_next {ctx ctx1 : Option Nat} {c c1 : Client}
    (wsKey p q : RKey) (fuel : Nat) (w : String) (rest : List String)
    (hstep : cleanWorkerStep wsKey p q fuel w ctx c = StepRes.next ctx1 c1) :
    cleanLoop wsKey p q fuel (w :: rest) ctx c = cleanLoop wsKey p q fuel rest ctx1 c1 := by
  conv_lhs => unfold cleanLoop
  rw [hstep]

theorem step_getfault_eq {m : String} (wsKey p q : RKey) (fuel : Nat) (w : String)
    (ctx : Option Nat) (c : Client) (hgf : c.getFaults (getHeartbeatKey w) = some m) :
    cleanWorkerStep wsKey p q fuel w ctx c =
      StepRes.abort
        (Outcome.fault ("error checking health of worker " ++ w ++ ": " ++ m)) ctx c := by
  unfold cleanWorkerStep
  rw [get_fault_of_fault c _ hgf]

theorem step_alive_eq {v : String} (wsKey p q : RKey) (fuel : Nat) (w : String)
    (ctx : Option Nat) (c : Client)
    (hgf : c.getFaults (getHeartbeatKey w) = none)
    (hkv : c.store.kv (getHeartbeatKey w) = some v) :
    cleanWorkerStep wsKey p q fuel w ctx c =
      (match ctxCheck ctx with
       | (true, ctx1) => StepRes.abort Outcome.canceled ctx1 c
       | (false, ctx1) => StepRes.next ctx1 c) := by
  unfold cleanWorkerStep
  rw [get_ok_of_alive c _ hgf hkv]

theorem step_dead_drain1_abort {o : Outcome} {ctx ctx1 : Option Nat} {c c1 : Client}
    {n1 : Nat} (wsKey p q : RKey) (fuel : Nat) (w : String)
    (hg : c.get (getHeartbeatKey w) = RedisResult.nil)
    (hd1 : drainQueue w (getActiveTaskQueueName w) p fuel ctx c = (o, ctx1, c1, n1))
    (ho : o ≠ Outcome.ok) :
    cleanWorkerStep wsKey p q fuel w ctx c = StepRes.abort o ctx1 c1 := by
  unfold cleanWorkerStep
  cases o with
  | ok => exact absurd rfl ho
  | canceled => simp only [hg, hd1]
  | fault m => simp only [hg, hd1]
  | outOfFuel => simp only [hg, hd1]

theorem step_dead_drain2_abort {o : Outcome} {ctx ctx1 ctx2 : Option Nat}
    {c c1 c2 : Client} {n1 n2 : Nat} (wsKey p q : RKey) (fuel : Nat) (w : String)
    (hg : c.get (getHeartbeatKey w) = RedisResult.nil)
    (hd1 : drainQueue w (getActiveTaskQueueName w) p fuel ctx c = (Outcome.ok, ctx1, c1, n1))
    (hd2 : drainQueue w (getWatchedTaskQueueName w) q fuel ctx1 c1 = (o, ctx2, c2, n2))
    (ho : o ≠ Outcome.ok) :
    cleanWorkerStep wsKey p q fuel w ctx c = StepRes.abort o ctx2 c2 := by
  unfold cleanWorkerStep
  cases o with
  | ok => exact absurd rfl ho
  | canceled => simp only [hg, hd1, hd2]
  | fault m => simp only [hg, hd1, hd2]
  | outOfFuel => simp only [hg, hd1, hd2]

theorem step_dead_srem_fault {m : String} {ctx ctx1 ctx2 : Option Nat}
    {c c1 c2 c3 : Client} {n1 n2 : Nat} (wsKey p q : RKey) (fuel : Nat) (w : String)
    (hg : c.get (getHeartbeatKey w) = RedisResult.nil)
    (hd1 : drainQueue w (getActiveTaskQueueName w) p fuel ctx c = (Outcome.ok, ctx1, c1, n1))
    (hd2 : drainQueue w (getWatchedTaskQueueName w) q fuel ctx1 c1 = (Outcome.ok, ctx2, c2, n2))
    (hs : c2.srem wsKey w = (RedisResult.fault m, c3)) :
    cleanWorkerStep wsKey p q fuel w ctx c =
      StepRes.abort
        (Outcome.fault ("error removing dead worker " ++ w ++ " from worker set: " ++ m))
        ctx2 c3 := by
  unfold cleanWorkerStep
  simp only [hg, hd1, hd2, hs]

theorem step_dead_done {res : RedisResult Unit} {ctx ctx1 ctx2 : Option Nat}
    {c c1 c2 c3 : Client} {n1 n2 : Nat} (wsKey p q : RKey) (fuel : Nat) (w : String)
    (hg : c.get (getHeartbeatKey w) = RedisResult.nil)
    (hd1 : drainQueue w (getActiveTaskQueueName w) p fuel ctx c = (Outcome.ok, ctx1, c1, n1))
    (hd2 : drainQueue w (getWatchedTaskQueueName w) q fuel ctx1 c1 = (Outcome.ok, ctx2, c2, n2))
    (hs : c2.srem wsKey w = (res, c3))
    (hres : ∀ m2, res ≠ RedisResult.fault m2) :
    cleanWorkerStep wsKey p q fuel w ctx c =
      (match ctxCheck ctx2 with
       | (true, ctx3) => StepRes.abort Outcome.canceled ctx3 c3
       | (false, ctx3) => StepRes.next ctx3 c3) := by
  unfold cleanWorkerStep
  cases res with
  | ok u => cases u; simp only [hg, hd1, hd2, hs]
  | nil => simp only [hg, hd1, hd2, hs]
  | fault m2 => exact absurd rfl (hres m2)

/-- Full inversion of one worker step. -/
theorem step_cases (wsKey p q : RKey) (fuel : Nat) (w : String) (ctx : Option Nat)
    (c : Client) {r : StepRes} (h : cleanWorkerStep wsKey p q fuel w ctx c = r) :
    (∃ v ctx1, c.get (getHeartbeatKey w) = RedisResult.ok v ∧
      ((ctxCheck ctx = (true, ctx1) ∧ r = StepRes.abort Outcome.canceled ctx1 c) ∨
       (ctxCheck ctx = (false, ctx1) ∧ r = StepRes.next ctx1 c))) ∨
    (∃ m, c.get (getHeartbeatKey w) = RedisResult.fault m ∧
      r = StepRes.abort
        (Outcome.fault ("error checking health of worker " ++ w ++ ": " ++ m)) ctx c) ∨
    (c.get (getHeartbeatKey w) = RedisResult.nil ∧
      ((∃ o ctx1 c1 n1,
          drainQueue w (getActiveTaskQueueName w) p fuel ctx c = (o, ctx1, c1, n1) ∧
          o ≠ Outcome.ok ∧ r = StepRes.abort o ctx1 c1) ∨
       (∃ ctx1 c1 n1,
          drainQueue w (getActiveTaskQueueName w) p fuel ctx c = (Outcome.ok, ctx1, c1, n1) ∧
          ((∃ o ctx2 c2 n2,
              drainQueue w (getWatchedTaskQueueName w) q fuel ctx1 c1 = (o, ctx2, c2, n2) ∧
              o ≠ Outcome.ok ∧ r = StepRes.abort o ctx2 c2) ∨
           (∃ ctx2 c2 n2,
              drainQueue w (getWatchedTaskQueueName w) q fuel ctx1 c1 =
                (Outcome.ok, ctx2, c2, n2) ∧
              ((∃ m c3, c2.srem wsKey w = (RedisResult.fault m, c3) ∧
                  r = StepRes.abort
                    (Outcome.fault
                      ("error removing dead worker " ++ w ++ " from worker set: " ++ m))
                    ctx2 c3) ∨
               (∃ res c3 ctx3, c2.srem wsKey w = (res, c3) ∧
                  (∀ m2, res ≠ RedisResult.fault m2) ∧
                  ((ctxCheck ctx2 = (true, ctx3) ∧
                      r = StepRes.abort Outcome.canceled ctx3 c3) ∨
                   (ctxCheck ctx2 = (false, ctx3) ∧
                      r = StepRes.next ctx3 c3))))))))) := by
  unfold cleanWorkerStep at h
  cases hg : c.get (getHeartbeatKey w) with
  | ok v =>
    simp only [hg] at h
    rcases hcc : ctxCheck ctx with ⟨canc, ctx1⟩
    simp only [hcc] at h
    cases canc with
    | true => exact Or.inl ⟨v, ctx1, rfl, Or.inl ⟨rfl, h.symm⟩⟩
    | false => exact Or.inl ⟨v, ctx1, rfl, Or.inr ⟨rfl, h.symm⟩⟩
  | fault m =>
    simp only [hg] at h
    exact Or.inr (Or.inl ⟨m, rfl, h.symm⟩)
  | nil =>
    simp only [hg] at h
    rcases hd1 : drainQueue w (getActiveTaskQueueName w) p fuel ctx c with ⟨o1, ctx1, c1, n1⟩
    simp only [hd1] at h
    cases o1 with
    | canceled =>
      exact Or.inr (Or.inr ⟨rfl, Or.inl ⟨_, ctx1, c1, n1, rfl,
        fun h2 => Outcome.noConfusion h2, h.symm⟩⟩)
    | fault m =>
      exact Or.inr (Or.inr ⟨rfl, Or.inl ⟨_, ctx1, c1, n1, rfl,
        fun h2 => Outcome.noConfusion h2, h.symm⟩⟩)
    | outOfFuel =>
      exact Or.inr (Or.inr ⟨rfl, Or.inl ⟨_, ctx1, c1, n1, rfl,
        fun h2 => Outcome.noConfusion h2, h.symm⟩⟩)
    | ok =>
      rcases hd2 : drainQueue w (getWatchedTaskQueueName w) q fuel ctx1 c1 with
        ⟨o2, ctx2, c2, n2⟩
      simp only [hd2] at h
      cases o2 with
      | canceled =>
        refine Or.inr (Or.inr ⟨rfl, Or.inr ⟨ctx1, c1, n1, rfl,
          Or.inl ⟨_, ctx2, c2, n2, hd2, ?_, h.symm⟩⟩⟩)
        intro h2
        cases h2
      | fault m =>
        refine Or.inr (Or.inr ⟨rfl, Or.inr ⟨ctx1, c1, n1, rfl,
          Or.inl ⟨_, ctx2, c2, n2, hd2, ?_, h.symm⟩⟩⟩)
        intro h2
        cases h2
      | outOfFuel =>
        refine Or.inr (Or.inr ⟨rfl, Or.inr ⟨ctx1, c1, n1, rfl,
          Or.inl ⟨_, ctx2, c2, n2, hd2, ?_, h.symm⟩⟩⟩)
        intro h2
        cases h2
      | ok =>
        rcases hs : c2.srem wsKey w with ⟨res, c3⟩
        simp only [hs] at h
        cases res with
        | fault m =>
          exact Or.inr (Or.inr ⟨rfl, Or.inr ⟨ctx1, c1, n1, rfl,
            Or.inr ⟨ctx2, c2, n2, hd2, Or.inl ⟨m, c3, hs, h.symm⟩⟩⟩⟩)
        | nil =>
          rcases hcc : ctxCheck ctx2 with ⟨canc, ctx3⟩
          simp only [hcc] at h
          cases canc with
          | true =>
            refine Or.inr (Or.inr ⟨rfl, Or.inr ⟨ctx1, c1, n1, rfl,
              Or.inr ⟨ctx2, c2, n2, hd2, Or.inr ⟨_, c3, ctx3, hs, ?_,
                Or.inl ⟨hcc, h.symm⟩⟩⟩⟩⟩)
            intro m2 h2
            cases h2
          | false =>
            refine Or.inr (Or.inr ⟨rfl, Or.inr ⟨ctx1, c1, n1, rfl,
              Or.inr ⟨ctx2, c2, n2, hd2, Or.inr ⟨_, c3, ctx3, hs, ?_,
                Or.inr ⟨hcc, h.symm⟩⟩⟩⟩⟩)
            intro m2 h2
            cases h2
        | ok u =>
          cases u
          rcases hcc : ctxCheck ctx2 with ⟨canc, ctx3⟩
          simp only [hcc] at h
          cases canc with
          | true =>
            refine Or.inr (Or.inr ⟨rfl, Or.inr ⟨ctx1, c1, n1, rfl,
              Or.inr ⟨ctx2, c2, n2, hd2, Or.inr ⟨_, c3, ctx3, hs, ?_,
                Or.inl ⟨hcc, h.symm⟩⟩⟩⟩⟩)
            intro m2 h2
            cases h2
          | false =>
            refine Or.inr (Or.inr ⟨rfl, Or.inr ⟨ctx1, c1, n1, rfl,
              Or.inr ⟨ctx2, c2, n2, hd2, Or.inr ⟨_, c3, ctx3, hs, ?_,
                Or.inr ⟨hcc, h.symm⟩⟩⟩⟩⟩)
            intro m2 h2
            cases h2

/-! ## Key-name disjointness facts -/

theorem active_ne_str (w s : String) : RKey.active w ≠ RKey.str s := fun h =>
  RKey.noConfusion h

theorem watched_ne_str (w s : String) : RKey.watched w ≠ RKey.str s := fun h =>
  RKey.noConfusion h

theorem active_ne_watched (w w2 : String) : RKey.active w ≠ RKey.watched w2 := fun h =>
  RKey.noConfusion h

theorem watched_ne_active (w w2 : String) : RKey.watched w ≠ RKey.active w2 := fun h =>
  RKey.noConfusion h

theorem str_ne_active (s w : String) : RKey.str s ≠ RKey.active w := fun h =>
  RKey.noConfusion h

theorem str_ne_watched (s w : String) : RKey.str s ≠ RKey.watched w := fun h =>
  RKey.noConfusion h

theorem active_ne_active {w w2 : String} (h : w ≠ w2) :
    RKey.active w ≠ RKey.active w2 := fun h2 => h (RKey.active.inj h2)

theorem watched_ne_watched {w w2 : String} (h : w ≠ w2) :
    RKey.watched w ≠ RKey.watched w2 := fun h2 => h (RKey.watched.inj h2)

/-- All the frame facts of a single queue drain whose destination is a global
(string-named) queue: only the source and destination lists change, elements
of other lists are preserved (and elements of the destination only gain
company at the head), an ok-or-aborted drain of an empty source leaves it
empty, and keys, sets and fault configuration are untouched. -/
theorem drain_frame_pack (w : String) (aw : RKey) (s : String)
    (hsd : aw ≠ RKey.str s) (fuel : Nat) (ctx : Option Nat) (c : Client)
    {o : Outcome} {ctx2 : Option Nat} {c2 : Client} {n : Nat}
    (h : drainQueue w aw (RKey.str s) fuel ctx c = (o, ctx2, c2, n)) :
    c2.store.kv = c.store.kv ∧ c2.getFaults = c.getFaults ∧
    c2.moveFaults = c.moveFaults ∧ c2.smembersNil = c.smembersNil ∧
    c2.smembersFault = c.smembersFault ∧ c2.sremFaults = c.sremFaults ∧
    c2.sremNil = c.sremNil ∧
    (∀ k, k ≠ aw → k ≠ RKey.str s → c2.store.lists k = c.store.lists k) ∧
    (∀ k, k ≠ aw → ∀ y, y ∈ c.store.lists k → y ∈ c2.store.lists k) ∧
    (c.store.lists aw = [] → c2.store.lists aw = []) ∧
    (∀ k2, c2.store.sets k2 = c.store.sets k2) := by
  have hshape := drain_shape w aw (RKey.str s) fuel ctx c h
  refine ⟨by rw [hshape]; rfl, by rw [hshape]; rfl, by rw [hshape]; rfl,
    by rw [hshape]; rfl, by rw [hshape]; rfl, by rw [hshape]; rfl,
    by rw [hshape]; rfl, ?_, ?_, ?_, ?_⟩
  · exact drain_frame w aw (RKey.str s) fuel ctx c h
  · exact drain_mono w aw (RKey.str s) fuel ctx c h
  · intro hl
    obtain ⟨P, Q, hPQ, hP, -, -⟩ := drain_decomp w aw (RKey.str s) hsd fuel ctx c h
    rw [hl] at hPQ
    rw [hP, (List.append_eq_nil.mp hPQ.symm).1]
  · intro k2
    rw [hshape]
    rfl

/-- Frame facts of one `cleanWorkerStep` with global (string-named) pending
and deferred queues: whatever branch is taken, the step leaves the key/value
space and the fault configuration untouched; it changes no list other than
the worker's own two queues and the two global queues, only adds to lists it
does not drain, keeps an empty worker queue empty, and either leaves the
worker set unchanged or erases exactly this worker from it. -/
theorem step_frame (ws2 : RKey) (ps qs : String) (fuel : Nat) (w : String)
    (ctx : Option Nat) (c : Client) {r : StepRes}
    (h : cleanWorkerStep ws2 (RKey.str ps) (RKey.str qs) fuel w ctx c = r) :
    r.client.store.kv = c.store.kv ∧
    r.client.getFaults = c.getFaults ∧
    r.client.moveFaults = c.moveFaults ∧
    r.client.smembersNil = c.smembersNil ∧
    r.client.smembersFault = c.smembersFault ∧
    r.client.sremFaults = c.sremFaults ∧
    r.client.sremNil = c.sremNil ∧
    (∀ k, k ≠ RKey.active w → k ≠ RKey.watched w → k ≠ RKey.str ps → k ≠ RKey.str qs →
      r.client.store.lists k = c.store.lists k) ∧
    (∀ k, k ≠ RKey.active w → k ≠ RKey.watched w →
      ∀ y, y ∈ c.store.lists k → y ∈ r.client.store.lists k) ∧
    (c.store.lists (RKey.active w) = [] → r.client.store.lists (RKey.active w) = []) ∧
    (c.store.lists (RKey.watched w) = [] → r.client.store.lists (RKey.watched w) = []) ∧
    (∀ k, k ≠ ws2 → r.client.store.sets k = c.store.sets k) ∧
    (r.client.store.sets ws2 = c.store.sets ws2 ∨
      r.client.store.sets ws2 = (c.store.sets ws2).erase w) := by
  rcases step_cases ws2 (RKey.str ps) (RKey.str qs) fuel w ctx c h with
    ⟨v, ctx1, hget, hcase⟩ | ⟨m, hget, hr⟩ | ⟨hget, hrest⟩
  · rcases hcase with ⟨hcc, hr⟩ | ⟨hcc, hr⟩ <;>
      exact hr ▸ ⟨rfl, rfl, rfl, rfl, rfl, rfl, rfl, fun k _ _ _ _ => rfl,
        fun k _ _ y hy => hy, fun hl => hl, fun hl => hl, fun k _ => rfl, Or.inl rfl⟩
  · exact hr ▸ ⟨rfl, rfl, rfl, rfl, rfl, rfl, rfl, fun k _ _ _ _ => rfl,
      fun k _ _ y hy => hy, fun hl => hl, fun hl => hl, fun k _ => rfl, Or.inl rfl⟩
  · rcases hrest with ⟨o, ctx1, c1, n1, hd1, ho, hr⟩ | ⟨ctx1, c1, n1, hd1, hrest2⟩
    · subst hr
      simp only [StepRes.client]
      obtain ⟨f1, f2, f3, f4, f5, f6, f7, f8, f9, f10, f11⟩ :=
        drain_frame_pack w (RKey.active w) ps (active_ne_str w ps) fuel ctx c hd1
      exact ⟨f1, f2, f3, f4, f5, f6, f7,
        fun k h1 h2 h3 h4 => f8 k h1 h3,
        fun k h1 h2 y hy => f9 k h1 y hy,
        f10,
        fun hl => by rw [f8 _ (watched_ne_active w w) (watched_ne_str w ps)]; exact hl,
        fun k hk => f11 k, Or.inl (f11 ws2)⟩
    · have hempty1 := drain_ok_src_empty w (RKey.active w) (RKey.str ps) fuel ctx c hd1
      obtain ⟨f1, f2, f3, f4, f5, f6, f7, f8, f9, f10, f11⟩ :=
        drain_frame_pack w (RKey.active w) ps (active_ne_str w ps) fuel ctx c hd1
      rcases hrest2 with ⟨o, ctx2, c2, n2, hd2, ho, hr⟩ | ⟨ctx2, c2, n2, hd2, hrest3⟩
      · subst hr
        simp only [StepRes.client]
        obtain ⟨g1, g2, g3, g4, g5, g6, g7, g8, g9, g10, g11⟩ :=
          drain_frame_pack w (RKey.watched w) qs (watched_ne_str w qs) fuel ctx1 c1 hd2
        refine ⟨g1.trans f1, g2.trans f2, g3.trans f3, g4.trans f4, g5.trans f5,
          g6.trans f6, g7.trans f7, ?_, ?_, ?_, ?_, ?_, ?_⟩
        · intro k h1 h2 h3 h4
          rw [g8 k h2 h4, f8 k h1 h3]
        · intro k h1 h2 y hy
          exact g9 k h2 y (f9 k h1 y hy)
        · intro _
          rw [g8 _ (active_ne_watched w w) (active_ne_str w qs)]
          exact hempty1
        · intro hl
          refine g10 ?_
          rw [f8 _ (watched_ne_active w w) (watched_ne_str w ps)]
          exact hl
        · intro k hk
          rw [g11 k, f11 k]
        · exact Or.inl (by rw [g11 ws2, f11 ws2])
      · have hempty2 :=
          drain_ok_src_empty w (RKey.watched w) (RKey.str qs) fuel ctx1 c1 hd2
        obtain ⟨g1, g2, g3, g4, g5, g6, g7, g8, g9, g10, g11⟩ :=
          drain_frame_pack w (RKey.watched w) qs (watched_ne_str w qs) fuel ctx1 c1 hd2
        have hactive2 : c2.store.lists (RKey.active w) = [] := by
          rw [g8 _ (active_ne_watched w w) (active_ne_str w qs)]
          exact hempty1
        rcases hrest3 with ⟨m, c3, hs, hr⟩ | ⟨res, c3, ctx3, hs, hres, hcase3⟩
        · subst hr
          simp only [StepRes.client]
          obtain ⟨hfault, -⟩ := srem_fault_iff c2 ws2 w hs
          obtain ⟨-, hc3⟩ := hfault m rfl
          subst hc3
          refine ⟨g1.trans f1, g2.trans f2, g3.trans f3, g4.trans f4, g5.trans f5,
            g6.trans f6, g7.trans f7, ?_, ?_, ?_, ?_, ?_, ?_⟩
          · intro k h1 h2 h3 h4
            rw [g8 k h2 h4, f8 k h1 h3]
          · intro k h1 h2 y hy
            exact g9 k h2 y (f9 k h1 y hy)
          · intro _
            exact hactive2
          · intro hl
            refine g10 ?_
            rw [f8 _ (watched_ne_active w w) (watched_ne_str w ps)]
            exact hl
          · intro k hk
            rw [g11 k, f11 k]
          · exact Or.inl (by rw [g11 ws2, f11 ws2])
        · have hsf : c2.sremFaults w = none := by
            cases hsf2 : c2.sremFaults w with
            | none => rfl
            | some msg =>
              have : c2.srem ws2 w = (RedisResult.fault msg, c2) := by
                unfold Client.srem
                rw [hsf2]
              rw [hs] at this
              cases this
              exact absurd rfl (hres msg)
          obtain ⟨-, hok⟩ := srem_fault_iff c2 ws2 w hs
          obtain ⟨hc3, -⟩ := hok hsf
          subst hc3
          have base :
              ({ c2 with store := c2.store.eraseSet ws2 w } : Client).store.kv =
                c.store.kv ∧
              ({ c2 with store := c2.store.eraseSet ws2 w } : Client).getFaults =
                c.getFaults ∧
              ({ c2 with store := c2.store.eraseSet ws2 w } : Client).moveFaults =
                c.moveFaults ∧
              ({ c2 with store := c2.store.eraseSet ws2 w } : Client).smembersNil =
                c.smembersNil ∧
              ({ c2 with store := c2.store.eraseSet ws2 w } : Client).smembersFault =
                c.smembersFault ∧
              ({ c2 with store := c2.store.eraseSet ws2 w } : Client).sremFaults =
                c.sremFaults ∧
              ({ c2 with store := c2.store.eraseSet ws2 w } : Client).sremNil =
                c.sremNil ∧
              (∀ k, k ≠ RKey.active w → k ≠ RKey.watched w → k ≠ RKey.str ps →
                k ≠ RKey.str qs →
                ({ c2 with store := c2.store.eraseSet ws2 w } : Client).store.lists k =
                  c.store.lists k) ∧
              (∀ k, k ≠ RKey.active w → k ≠ RKey.watched w →
                ∀ y, y ∈ c.store.lists k →
                  y ∈ ({ c2 with store := c2.store.eraseSet ws2 w } : Client).store.lists k) ∧
              (c.store.lists (RKey.active w) = [] →
                ({ c2 with store := c2.store.eraseSet ws2 w } : Client).store.lists
                  (RKey.active w) = []) ∧
              (c.store.lists (RKey.watched w) = [] →
                ({ c2 with store := c2.store.eraseSet ws2 w } : Client).store.lists
                  (RKey.watched w) = []) ∧
              (∀ k, k ≠ ws2 →
                ({ c2 with store := c2.store.eraseSet ws2 w } : Client).store.sets k =
                  c.store.sets k) ∧
              (({ c2 with store := c2.store.eraseSet ws2 w } : Client).store.sets ws2 =
                  c.store.sets ws2 ∨
                ({ c2 with store := c2.store.eraseSet ws2 w } : Client).store.sets ws2 =
                  (c.store.sets ws2).erase w) := by
            refine ⟨g1.trans f1, g2.trans f2, g3.trans f3, g4.trans f4, g5.trans f5,
              g6.trans f6, g7.trans f7, ?_, ?_, ?_, ?_, ?_, ?_⟩
            · intro k h1 h2 h3 h4
              show c2.store.lists k = c.store.lists k
              rw [g8 k h2 h4, f8 k h1 h3]
            · intro k h1 h2 y hy
              exact g9 k h2 y (f9 k h1 y hy)
            · intro _
              exact hactive2
            · intro hl
              refine g10 ?_
              rw [f8 _ (watched_ne_active w w) (watched_ne_str w ps)]
              exact hl
            · intro k hk
              show (c2.store.eraseSet ws2 w).sets k = c.store.sets k
              rw [eraseSet_sets_ne _ _ _ _ hk, g11 k, f11 k]
            · refine Or.inr ?_
              show (c2.store.eraseSet ws2 w).sets ws2 = (c.store.sets ws2).erase w
              rw [eraseSet_sets_eq, g11 ws2, f11 ws2]
          rcases hcase3 with ⟨hcc, hr⟩ | ⟨hcc, hr⟩ <;> exact hr ▸ base

theorem get_nil_inv (c : Client) (k : RKey) (h : c.get k = RedisResult.nil) :
    c.getFaults k = none ∧ c.store.kv k = none := by
  unfold Client.get at h
  cases hgf : c.getFaults k with
  | some m => rw [hgf] at h; cases h
  | none =>
    rw [hgf] at h
    cases hkv : c.store.kv k with
    | some v => rw [hkv] at h; cases h
    | none => exact ⟨rfl, rfl⟩

theorem get_ok_inv (c : Client) (k : RKey) {v : String}
    (h : c.get k = RedisResult.ok v) :
    c.getFaults k = none ∧ c.store.kv k = some v := by
  unfold Client.get at h
  cases hgf : c.getFaults k with
  | some m => rw [hgf] at h; cases h
  | none =>
    rw [hgf] at h
    cases hkv : c.store.kv k with
    | some v2 => rw [hkv] at h; cases h; exact ⟨rfl, rfl⟩
    | none => rw [hkv] at h; cases h

/-- An aborting worker step never reports the successful outcome. -/
theorem step_abort_ne_ok (wsKey p q : RKey) (fuel : Nat) (w : String)
    (ctx : Option Nat) (c : Client) {o : Outcome} {ctx1 : Option Nat} {c1 : Client}
    (h : cleanWorkerStep wsKey p q fuel w ctx c = StepRes.abort o ctx1 c1) :
    o ≠ Outcome.ok := by
  rcases step_cases wsKey p q fuel w ctx c h with
    ⟨v, ctx2, hget, ⟨hcc, hr⟩ | ⟨hcc, hr⟩⟩ | ⟨m, hget, hr⟩ | ⟨hget, hrest⟩
  · cases hr
    intro h2
    cases h2
  · cases hr
  · cases hr
    intro h2
    cases h2
  · rcases hrest with ⟨o2, ctx2, c2, n2, hd1, ho, hr⟩ | ⟨ctx2, c2, n2, hd1, hrest2⟩
    · cases hr
      exact ho
    · rcases hrest2 with ⟨o2, ctx3, c3, n3, hd2, ho, hr⟩ | ⟨ctx3, c3, n3, hd2, hrest3⟩
      · cases hr
        exact ho
      · rcases hrest3 with ⟨m, c4, hs, hr⟩ |
          ⟨res, c4, ctx4, hs, hres, ⟨hcc, hr⟩ | ⟨hcc, hr⟩⟩
        · cases hr
          intro h2
          cases h2
        · cases hr
          intro h2
          cases h2
        · cases hr

/-- A worker step that continues to the next worker, taken on a dead worker,
has fully reclaimed that worker: its active queue has drained into the global
pending queue, its watched queue into the global deferred queue, both queues
are empty and the worker has been erased from the worker set. -/
theorem step_dead_next (ws2 : RKey) (ps qs : String) (fuel : Nat) (w : String)
    (ctx : Option Nat) (c : Client) {ctx1 : Option Nat} {c1 : Client}
    (hkv : c.store.kv (getHeartbeatKey w) = none)
    (h : cleanWorkerStep ws2 (RKey.str ps) (RKey.str qs) fuel w ctx c =
      StepRes.next ctx1 c1) :
    (∀ t, t ∈ c.store.lists (RKey.active w) → t ∈ c1.store.lists (RKey.str ps)) ∧
    (∀ t, t ∈ c.store.lists (RKey.watched w) → t ∈ c1.store.lists (RKey.str qs)) ∧
    c1.store.lists (RKey.active w) = [] ∧
    c1.store.lists (RKey.watched w) = [] ∧
    c1.store.sets ws2 = (c.store.sets ws2).erase w := by
  rcases step_cases ws2 (RKey.str ps) (RKey.str qs) fuel w ctx c h with
    ⟨v, ctx2, hget, ⟨hcc, hr⟩ | ⟨hcc, hr⟩⟩ | ⟨m, hget, hr⟩ | ⟨hget, hrest⟩
  · cases hr
  · obtain ⟨-, hkv2⟩ := get_ok_inv c _ hget
    rw [hkv] at hkv2
    cases hkv2
  · cases hr
  · rcases hrest with ⟨o2, ctx2, c2, n2, hd1, ho, hr⟩ | ⟨ctx2, c2, n2, hd1, hrest2⟩
    · cases hr
    · rcases hrest2 with ⟨o2, ctx3, c3, n3, hd2, ho, hr⟩ | ⟨ctx3, c3, n3, hd2, hrest3⟩
      · cases hr
      · rcases hrest3 with ⟨m, c4, hs, hr⟩ | ⟨res, c4, ctx4, hs, hres, hcase⟩
        · cases hr
        · rcases hcase with ⟨hcc, hr⟩ | ⟨hcc, hr⟩
          · cases hr
          · cases hr
            obtain ⟨hae, hps, -⟩ :=
              drain_ok w (RKey.active w) (RKey.str ps) (active_ne_str w ps)
                fuel ctx c hd1
            obtain ⟨f1, f2, f3, f4, f5, f6, f7, f8, f9, f10, f11⟩ :=
              drain_frame_pack w (RKey.active w) ps (active_ne_str w ps)
                fuel ctx c hd1
            obtain ⟨hwe, hqs, -⟩ :=
              drain_ok w (RKey.watched w) (RKey.str qs) (watched_ne_str w qs)
                fuel ctx2 c2 hd2
            obtain ⟨g1, g2, g3, g4, g5, g6, g7, g8, g9, g10, g11⟩ :=
              drain_frame_pack w (RKey.watched w) qs (watched_ne_str w qs)
                fuel ctx2 c2 hd2
            have hsf : c3.sremFaults w = none := by
              cases hsf2 : c3.sremFaults w with
              | none => rfl
              | some msg =>
                have heq : c3.srem ws2 w = (RedisResult.fault msg, c3) := by
                  unfold Client.srem
                  rw [hsf2]
                rw [hs] at heq
                cases heq
                exact absurd rfl (hres msg)
            obtain ⟨-, hok⟩ := srem_fault_iff c3 ws2 w hs
            obtain ⟨hc4, -⟩ := hok hsf
            subst hc4
            refine ⟨?_, ?_, ?_, ?_, ?_⟩
            · intro t ht
              show t ∈ c3.store.lists (RKey.str ps)
              refine g9 _ (str_ne_watched ps w) t ?_
              rw [hps]
              exact List.mem_append_left _ ht
            · intro t ht
              show t ∈ c3.store.lists (RKey.str qs)
              rw [hqs, f8 _ (watched_ne_active w w) (watched_ne_str w ps)]
              exact List.mem_append_left _ ht
            · show c3.store.lists (RKey.active w) = []
              rw [g8 _ (active_ne_watched w w) (active_ne_str w qs)]
              exact hae
            · exact hwe
            · show (c3.store.eraseSet ws2 w).sets ws2 = (c.store.sets ws2).erase w
              rw [eraseSet_sets_eq, g11, f11]

/-- A worker step that continues to the next worker either found the worker
alive (heartbeat key present, no transport fault) and changed nothing, or
found it dead (heartbeat key absent) and erased it from the worker set. -/
theorem step_next_cases (ws2 : RKey) (ps qs : String) (fuel : Nat) (w : String)
    (ctx : Option Nat) (c : Client) {ctx1 : Option Nat} {c1 : Client}
    (h : cleanWorkerStep ws2 (RKey.str ps) (RKey.str qs) fuel w ctx c =
      StepRes.next ctx1 c1) :
    (c.getFaults (getHeartbeatKey w) = none ∧
      (∃ v, c.store.kv (getHeartbeatKey w) = some v) ∧ c1 = c) ∨
    (c.store.kv (getHeartbeatKey w) = none ∧
      c1.store.sets ws2 = (c.store.sets ws2).erase w) := by
  rcases step_cases ws2 (RKey.str ps) (RKey.str qs) fuel w ctx c h with
    ⟨v, ctx2, hget, ⟨hcc, hr⟩ | ⟨hcc, hr⟩⟩ | ⟨m, hget, hr⟩ | ⟨hget, hrest⟩
  · cases hr
  · cases hr
    obtain ⟨hgf, hkv⟩ := get_ok_inv c _ hget
    exact Or.inl ⟨hgf, ⟨v, hkv⟩, rfl⟩
  · cases hr
  · obtain ⟨-, hkv⟩ := get_nil_inv c _ hget
    refine Or.inr ⟨hkv, ?_⟩
    obtain ⟨-, -, -, -, hsets⟩ := step_dead_next ws2 ps qs fuel w ctx c hkv h
    exact hsets

/-! ## Loop-level lemmas for `cleanLoop` -/

/-- Facts preserved by any run of the worker loop, whatever its outcome:
elements already in globally named (string-keyed) lists stay there, an empty
per-worker queue stays empty, absence from the worker set is preserved,
the key/value space and fault configuration never change, and the worker set
stays duplicate-free. -/
theorem loop_post (ws2 : RKey) (ps qs : String) (fuel : Nat) (w0 : String) :
    ∀ (list : List String) (ctx : Option Nat) (c : Client) {o : Outcome}
      {ctx' : Option Nat} {c' : Client},
      cleanLoop ws2 (RKey.str ps) (RKey.str qs) fuel list ctx c = (o, ctx', c') →
      (∀ s y, y ∈ c.store.lists (RKey.str s) → y ∈ c'.store.lists (RKey.str s)) ∧
      (c.store.lists (RKey.active w0) = [] → c'.store.lists (RKey.active w0) = []) ∧
      (c.store.lists (RKey.watched w0) = [] → c'.store.lists (RKey.watched w0) = []) ∧
      (w0 ∉ c.store.sets ws2 → w0 ∉ c'.store.sets ws2) ∧
      c'.store.kv = c.store.kv ∧
      c'.getFaults = c.getFaults ∧
      c'.moveFaults = c.moveFaults ∧
      c'.smembersNil = c.smembersNil ∧
      c'.smembersFault = c.smembersFault ∧
      c'.sremFaults = c.sremFaults ∧
      c'.sremNil = c.sremNil ∧
      ((c.store.sets ws2).Nodup → (c'.store.sets ws2).Nodup) := by
  intro list
  induction list with
  | nil =>
    intro ctx c o ctx' c' h
    rw [cleanLoop_nil_eq] at h
    cases h
    exact ⟨fun s y hy => hy, id, id, id, rfl, rfl, rfl, rfl, rfl, rfl, rfl, id⟩
  | cons w rest ih =>
    intro ctx c o ctx' c' h
    rcases hstep : cleanWorkerStep ws2 (RKey.str ps) (RKey.str qs) fuel w ctx c with
      ⟨o1, ctx1, c1⟩ | ⟨ctx1, c1⟩
    · rw [cleanLoop_cons_abort ws2 (RKey.str ps) (RKey.str qs) fuel w rest hstep] at h
      cases h
      have F := step_frame ws2 ps qs fuel w ctx c hstep
      simp only [StepRes.client] at F
      obtain ⟨F1, F2, F3, F4, F5, F6, F7, F8, F9, F10, F11, F12, F13⟩ := F
      refine ⟨?_, ?_, ?_, ?_, F1, F2, F3, F4, F5, F6, F7, ?_⟩
      · intro s y hy
        exact F9 _ (str_ne_active s w) (str_ne_watched s w) y hy
      · intro hl
        by_cases hw : w0 = w
        · subst hw
          exact F10 hl
        · rw [F8 _ (active_ne_active hw) (active_ne_watched w0 w)
            (active_ne_str w0 ps) (active_ne_str w0 qs)]
          exact hl
      · intro hl
        by_cases hw : w0 = w
        · subst hw
          exact F11 hl
        · rw [F8 _ (watched_ne_active w0 w) (watched_ne_watched hw)
            (watched_ne_str w0 ps) (watched_ne_str w0 qs)]
          exact hl
      · intro hmem hmem2
        rcases F13 with hset | hset
        · rw [hset] at hmem2
          exact hmem hmem2
        · rw [hset] at hmem2
          exact hmem (List.mem_of_mem_erase hmem2)
      · intro hnd
        rcases F13 with hset | hset
        · rw [hset]
          exact hnd
        · rw [hset]
          exact List.Nodup.erase w hnd
    · rw [cleanLoop_cons_next ws2 (RKey.str ps) (RKey.str qs) fuel w rest hstep] at h
      have F := step_frame ws2 ps qs fuel w ctx c hstep
      simp only [StepRes.client] at F
      obtain ⟨F1, F2, F3, F4, F5, F6, F7, F8, F9, F10, F11, F12, F13⟩ := F
      obtain ⟨G1, G2, G3, G4, G5, G6, G7, G8, G9, G10, G11, G12⟩ := ih ctx1 c1 h
      refine ⟨?_, ?_, ?_, ?_, G5.trans F1, G6.trans F2, G7.trans F3, G8.trans F4,
        G9.trans F5, G10.trans F6, G11.trans F7, ?_⟩
      · intro s y hy
        exact G1 s y (F9 _ (str_ne_active s w) (str_ne_watched s w) y hy)
      · intro hl
        refine G2 ?_
        by_cases hw : w0 = w
        · subst hw
          exact F10 hl
        · rw [F8 _ (active_ne_active hw) (active_ne_watched w0 w)
            (active_ne_str w0 ps) (active_ne_str w0 qs)]
          exact hl
      · intro hl
        refine G3 ?_
        by_cases hw : w0 = w
        · subst hw
          exact F11 hl
        · rw [F8 _ (watched_ne_active w0 w) (watched_ne_watched hw)
            (watched_ne_str w0 ps) (watched_ne_str w0 qs)]
          exact hl
      · intro hmem
        refine G4 ?_
        intro hmem2
        rcases F13 with hset | hset
        · rw [hset] at hmem2
          exact hmem hmem2
        · rw [hset] at hmem2
          exact hmem (List.mem_of_mem_erase hmem2)
      · intro hnd
        refine G12 ?_
        rcases F13 with hset | hset
        · rw [hset]
          exact hnd
        · rw [hset]
          exact List.Nodup.erase w hnd

/-- A worker whose heartbeat key is present is never touched by the loop:
its two queues and its worker-set membership are exactly preserved, whatever
outcome the loop reports. -/
theorem loop_alive (ws2 : RKey) (ps qs : String) (fuel : Nat) (w0 v : String) :
    ∀ (list : List String) (ctx : Option Nat) (c : Client) {o : Outcome}
      {ctx' : Option Nat} {c' : Client},
      cleanLoop ws2 (RKey.str ps) (RKey.str qs) fuel list ctx c = (o, ctx', c') →
      c.store.kv (getHeartbeatKey w0) = some v →
      c'.store.lists (RKey.active w0) = c.store.lists (RKey.active w0) ∧
      c'.store.lists (RKey.watched w0) = c.store.lists (RKey.watched w0) ∧
      (w0 ∈ c'.store.sets ws2 ↔ w0 ∈ c.store.sets ws2) := by
  intro list
  induction list with
  | nil =>
    intro ctx c o ctx' c' h halive
    rw [cleanLoop_nil_eq] at h
    cases h
    exact ⟨rfl, rfl, Iff.rfl⟩
  | cons w rest ih =>
    intro ctx c o ctx' c' h halive
    rcases hstep : cleanWorkerStep ws2 (RKey.str ps) (RKey.str qs) fuel w ctx c with
      ⟨o1, ctx1, c1⟩ | ⟨ctx1, c1⟩
    · rw [cleanLoop_cons_abort ws2 (RKey.str ps) (RKey.str qs) fuel w rest hstep] at h
      cases h
      by_cases hw : w = w0
      · subst hw
        rcases step_cases ws2 (RKey.str ps) (RKey.str qs) fuel w ctx c hstep with
          ⟨v2, ctx2, hget, ⟨hcc, hr⟩ | ⟨hcc, hr⟩⟩ | ⟨m, hget, hr⟩ | ⟨hget, hrest⟩
        · cases hr
          exact ⟨rfl, rfl, Iff.rfl⟩
        · cases hr
        · cases hr
          exact ⟨rfl, rfl, Iff.rfl⟩
        · obtain ⟨-, hkv⟩ := get_nil_inv c _ hget
          rw [halive] at hkv
          cases hkv
      · have F := step_frame ws2 ps qs fuel w ctx c hstep
        simp only [StepRes.client] at F
        obtain ⟨F1, F2, F3, F4, F5, F6, F7, F8, F9, F10, F11, F12, F13⟩ := F
        have hw0 : w0 ≠ w := fun h2 => hw h2.symm
        refine ⟨F8 _ (active_ne_active hw0) (active_ne_watched w0 w)
          (active_ne_str w0 ps) (active_ne_str w0 qs),
          F8 _ (watched_ne_active w0 w) (watched_ne_watched hw0)
            (watched_ne_str w0 ps) (watched_ne_str w0 qs), ?_⟩
        rcases F13 with hset | hset
        · rw [hset]
        · rw [hset]
          exact List.mem_erase_of_ne hw0
    · rw [cleanLoop_cons_next ws2 (RKey.str ps) (RKey.str qs) fuel w rest hstep] at h
      have F := step_frame ws2 ps qs fuel w ctx c hstep
      simp only [StepRes.client] at F
      obtain ⟨F1, F2, F3, F4, F5, F6, F7, F8, F9, F10, F11, F12, F13⟩ := F
      have halive1 : c1.store.kv (getHeartbeatKey w0) = some v := by
        rw [F1]
        exact halive
      obtain ⟨G1, G2, G3⟩ := ih ctx1 c1 h halive1
      by_cases hw : w = w0
      · subst hw
        rcases step_next_cases ws2 ps qs fuel w ctx c hstep with
          ⟨-, -, hc1⟩ | ⟨hkv, -⟩
        · subst hc1
          exact ⟨G1, G2, G3⟩
        · rw [halive] at hkv
          cases hkv
      · have hw0 : w0 ≠ w := fun h2 => hw h2.symm
        refine ⟨?_, ?_, ?_⟩
        · rw [G1, F8 _ (active_ne_active hw0) (active_ne_watched w0 w)
            (active_ne_str w0 ps) (active_ne_str w0 qs)]
        · rw [G2, F8 _ (watched_ne_active w0 w) (watched_ne_watched hw0)
            (watched_ne_str w0 ps) (watched_ne_str w0 qs)]
        · refine G3.trans ?_
          rcases F13 with hset | hset
          · rw [hset]
          · rw [hset]
            exact List.mem_erase_of_ne hw0

/-- After a successful (outcome `ok`) run of the worker loop over a list
containing a dead worker, that worker has been fully reclaimed. -/
theorem loop_dead (ws2 : RKey) (ps qs : String) (fuel : Nat) (w0 : String) :
    ∀ (list : List String) (ctx : Option Nat) (c : Client)
      {ctx' : Option Nat} {c' : Client},
      cleanLoop ws2 (RKey.str ps) (RKey.str qs) fuel list ctx c =
        (Outcome.ok, ctx', c') →
      (c.store.sets ws2).Nodup →
      w0 ∈ list →
      c.store.kv (getHeartbeatKey w0) = none →
      (∀ t, t ∈ c.store.lists (RKey.active w0) → t ∈ c'.store.lists (RKey.str ps)) ∧
      (∀ t, t ∈ c.store.lists (RKey.watched w0) → t ∈ c'.store.lists (RKey.str qs)) ∧
      c'.store.lists (RKey.active w0) = [] ∧
      c'.store.lists (RKey.watched w0) = [] ∧
      w0 ∉ c'.store.sets ws2 := by
  intro list
  induction list with
  | nil =>
    intro ctx c ctx' c' h hnd hmem hdead
    cases hmem
  | cons w rest ih =>
    intro ctx c ctx' c' h hnd hmem hdead
    rcases hstep : cleanWorkerStep ws2 (RKey.str ps) (RKey.str qs) fuel w ctx c with
      ⟨o1, ctx1, c1⟩ | ⟨ctx1, c1⟩
    · rw [cleanLoop_cons_abort ws2 (RKey.str ps) (RKey.str qs) fuel w rest hstep] at h
      cases h
      exact absurd rfl (step_abort_ne_ok ws2 (RKey.str ps) (RKey.str qs) fuel w ctx c hstep)
    · rw [cleanLoop_cons_next ws2 (RKey.str ps) (RKey.str qs) fuel w rest hstep] at h
      have F := step_frame ws2 ps qs fuel w ctx c hstep
      simp only [StepRes.client] at F
      obtain ⟨F1, F2, F3, F4, F5, F6, F7, F8, F9, F10, F11, F12, F13⟩ := F
      obtain ⟨P1, P2, P3, P4, P5, P6, P7, P8, P9, P10, P11, P12⟩ :=
        loop_post ws2 ps qs fuel w0 rest ctx1 c1 h
      by_cases hw : w = w0
      · subst hw
        obtain ⟨D1, D2, D3, D4, D5⟩ := step_dead_next ws2 ps qs fuel w ctx c hdead hstep
        refine ⟨?_, ?_, P2 D3, P3 D4, ?_⟩
        · intro t ht
          exact P1 ps t (D1 t ht)
        · intro t ht
          exact P1 qs t (D2 t ht)
        · refine P4 ?_
          rw [D5]
          intro hmem2
          exact ((List.Nodup.mem_erase_iff hnd).mp hmem2).1 rfl
      · have hw0 : w0 ≠ w := fun h2 => hw h2.symm
        have hmem1 : w0 ∈ rest := by
          rcases List.mem_cons.mp hmem with h2 | h2
          · exact absurd h2.symm hw
          · exact h2
        have hnd1 : (c1.store.sets ws2).Nodup := by
          rcases F13 with hset | hset
          · rw [hset]
            exact hnd
          · rw [hset]
            exact List.Nodup.erase w hnd
        have hdead1 : c1.store.kv (getHeartbeatKey w0) = none := by
          rw [F1]
          exact hdead
        obtain ⟨I1, I2, I3, I4, I5⟩ := ih ctx1 c1 h hnd1 hmem1 hdead1
        have hact : c1.store.lists (RKey.active w0) = c.store.lists (RKey.active w0) :=
          F8 _ (active_ne_active hw0) (active_ne_watched w0 w)
            (active_ne_str w0 ps) (active_ne_str w0 qs)
        have hwat : c1.store.lists (RKey.watched w0) = c.store.lists (RKey.watched w0) :=
          F8 _ (watched_ne_active w0 w) (watched_ne_watched hw0)
            (watched_ne_str w0 ps) (watched_ne_str w0 qs)
        refine ⟨?_, ?_, I3, I4, I5⟩
        · intro t ht
          refine I1 t ?_
          rw [hact]
          exact ht
        · intro t ht
          refine I2 t ?_
          rw [hwat]
          exact ht

/-- A loop over workers that are all alive (heartbeat present, no transport
fault on the heartbeat read) changes nothing: the client after the run is the
client before it, whatever outcome cancellation produces. -/
theorem loop_alive_noop (ws2 p q : RKey) (fuel : Nat) :
    ∀ (list : List String) (ctx : Option Nat) (c : Client),
      (∀ x, x ∈ list → c.getFaults (getHeartbeatKey x) = none ∧
        ∃ v, c.store.kv (getHeartbeatKey x) = some v) →
      (cleanLoop ws2 p q fuel list ctx c).2.2 = c := by
  intro list
  induction list with
  | nil =>
    intro ctx c _
    rw [cleanLoop_nil_eq]
  | cons w rest ih =>
    intro ctx c halive
    obtain ⟨hgf, v, hkv⟩ := halive w (List.mem_cons_self w rest)
    have hstep := step_alive_eq ws2 p q fuel w ctx c hgf hkv
    rcases hcc : ctxCheck ctx with ⟨canc, ctx1⟩
    rw [hcc] at hstep
    cases canc with
    | true =>
      rw [cleanLoop_cons_abort ws2 p q fuel w rest hstep]
    | false =>
      rw [cleanLoop_cons_next ws2 p q fuel w rest hstep]
      exact ih ctx1 c (fun x hx => halive x (List.mem_cons_of_mem w hx))

/-- After a successful run of the worker loop, every worker still in the
worker set is alive: its heartbeat key is present and its heartbeat read has
no transport fault configured.  The invariant hypothesis allows every
worker-set member to be either already known alive or still scheduled in the
remaining enumeration. -/
theorem loop_ok_alive (ws2 : RKey) (ps qs : String) (fuel : Nat) :
    ∀ (list : List String) (ctx : Option Nat) (c : Client)
      {ctx' : Option Nat} {c' : Client},
      cleanLoop ws2 (RKey.str ps) (RKey.str qs) fuel list ctx c =
        (Outcome.ok, ctx', c') →
      (c.store.sets ws2).Nodup →
      (∀ x, x ∈ c.store.sets ws2 →
        (c.getFaults (getHeartbeatKey x) = none ∧
          ∃ v, c.store.kv (getHeartbeatKey x) = some v) ∨ x ∈ list) →
      ∀ x, x ∈ c'.store.sets ws2 →
        c'.getFaults (getHeartbeatKey x) = none ∧
        ∃ v, c'.store.kv (getHeartbeatKey x) = some v := by
  intro list
  induction list with
  | nil =>
    intro ctx c ctx' c' h hnd hinv x hx
    rw [cleanLoop_nil_eq] at h
    cases h
    rcases hinv x hx with halive | hfalse
    · exact halive
    · cases hfalse
  | cons w rest ih =>
    intro ctx c ctx' c' h hnd hinv x hx
    rcases hstep : cleanWorkerStep ws2 (RKey.str ps) (RKey.str qs) fuel w ctx c with
      ⟨o1, ctx1, c1⟩ | ⟨ctx1, c1⟩
    · rw [cleanLoop_cons_abort ws2 (RKey.str ps) (RKey.str qs) fuel w rest hstep] at h
      cases h
      exact absurd rfl
        (step_abort_ne_ok ws2 (RKey.str ps) (RKey.str qs) fuel w ctx c hstep)
    · rw [cleanLoop_cons_next ws2 (RKey.str ps) (RKey.str qs) fuel w rest hstep] at h
      have F := step_frame ws2 ps qs fuel w ctx c hstep
      simp only [StepRes.client] at F
      obtain ⟨F1, F2, F3, F4, F5, F6, F7, F8, F9, F10, F11, F12, F13⟩ := F
      have hnd1 : (c1.store.sets ws2).Nodup := by
        rcases F13 with hset | hset
        · rw [hset]
          exact hnd
        · rw [hset]
          exact List.Nodup.erase w hnd
      refine ih ctx1 c1 h hnd1 ?_ x hx
      intro x2 hx2
      rcases step_next_cases ws2 ps qs fuel w ctx c hstep with
        ⟨hgf, ⟨v, hkv⟩, hc1⟩ | ⟨hkv, hsets⟩
      · subst hc1
        rcases hinv x2 hx2 with halive | hlist
        · exact Or.inl halive
        · rcases List.mem_cons.mp hlist with h2 | h2
          · subst h2
            exact Or.inl ⟨hgf, v, hkv⟩
          · exact Or.inr h2
      · have hx2c : x2 ∈ c.store.sets ws2 := by
          rw [hsets] at hx2
          exact List.mem_of_mem_erase hx2
        have hx2ne : x2 ≠ w := by
          rw [hsets] at hx2
          exact ((List.Nodup.mem_erase_iff hnd).mp hx2).1
        rcases hinv x2 hx2c with ⟨hgf2, v2, hkv2⟩ | hlist
        · refine Or.inl ⟨?_, v2, ?_⟩
          · rw [F2]
            exact hgf2
          · rw [F1]
            exact hkv2
        · rcases List.mem_cons.mp hlist with h2 | h2
          · exact absurd h2 hx2ne
          · exact Or.inr h2


/-! ## Case equations for `clean` -/

theorem clean_smembers_nil_eq (wsKey p q : RKey) (fuel : Nat) (ctx : Option Nat)
    (c : Client) (h : c.smembersNil = true) :
    clean wsKey p q fuel ctx c = (Outcome.ok, ctx, c) := by
  unfold clean
  rw [h]
  rfl

theorem clean_smembers_fault_eq {m : String} (wsKey p q : RKey) (fuel : Nat)
    (ctx : Option Nat) (c : Client) (hn : c.smembersNil = false)
    (hf : c.smembersFault = some m) :
    clean wsKey p q fuel ctx c =
      (Outcome.fault ("error retrieving workers: " ++ m), ctx, c) := by
  unfold clean
  rw [hn, hf]
  rfl

theorem clean_loop_eq (wsKey p q : RKey) (fuel : Nat) (ctx : Option Nat)
    (c : Client) (hn : c.smembersNil = false) (hf : c.smembersFault = none) :
    clean wsKey p q fuel ctx c = cleanLoop wsKey p q fuel (c.store.sets wsKey) ctx c := by
  unfold clean
  rw [hn, hf]
  rfl

/-! ## Claim theorems -/

/-- C2: for every source list S and destination list D, a run of
`drainQueue` (the embedding of `defaultCleanWorkerQueue`) that returns the
successful outcome — i.e. that met neither a store fault nor cancellation
before exhausting the source — leaves the source list empty and the
destination list equal to S followed by the old D (head to tail), the drained
elements keeping their relative order at the head of the destination; the
move counter equals the length of S. -/
theorem drainQueue_ok_spec (w : String) (src dst : RKey) (hsd : src ≠ dst)
    (fuel : Nat) (ctx ctx2 : Option Nat) (c c2 : Client) (n : Nat)
    (heq : drainQueue w src dst fuel ctx c = (Outcome.ok, ctx2, c2, n)) :
    c2.store.lists src = [] ∧
    c2.store.lists dst = c.store.lists src ++ c.store.lists dst ∧
    n = (c.store.lists src).length :=
  drain_ok w src dst hsd fuel ctx c heq

/-- Witness for C2: draining `s = [a, b]` into `d = [c]` with ample fuel and
no cancellation succeeds, empties `s`, leaves `d = [a, b, c]` and counts two
moves. -/
theorem drainQueue_ok_spec_witness :
    (drainQueue "w" (RKey.str "s") (RKey.str "d") 5 none drainDemoClient).2.2.1.store.lists
        (RKey.str "s") = [] ∧
    (drainQueue "w" (RKey.str "s") (RKey.str "d") 5 none drainDemoClient).2.2.1.store.lists
        (RKey.str "d") =
      drainDemoClient.store.lists (RKey.str "s") ++
        drainDemoClient.store.lists (RKey.str "d") ∧
    (drainQueue "w" (RKey.str "s") (RKey.str "d") 5 none drainDemoClient).2.2.2 =
      (drainDemoClient.store.lists (RKey.str "s")).length :=
  drainQueue_ok_spec "w" (RKey.str "s") (RKey.str "d") (by decide) 5 none
    (drainQueue "w" (RKey.str "s") (RKey.str "d") 5 none drainDemoClient).2.1
    drainDemoClient
    (drainQueue "w" (RKey.str "s") (RKey.str "d") 5 none drainDemoClient).2.2.1
    (drainQueue "w" (RKey.str "s") (RKey.str "d") 5 none drainDemoClient).2.2.2
    rfl

/-- C4: if the heartbeat `GET` for the worker the sweep is currently checking
reports a transport fault (not the distinguished not-found outcome), the
worker loop of `defaultClean` returns that error immediately, wrapped with
the worker's identity: the client state is returned untouched — no queue
drain, no worker-set removal — and no later worker of the enumeration is
processed. -/
theorem cleanLoop_heartbeat_fault (wsKey p q : RKey) (fuel : Nat) (w : String)
    (rest : List String) (ctx : Option Nat) (c : Client) (m : String)
    (hf : c.getFaults (getHeartbeatKey w) = some m) :
    cleanLoop wsKey p q fuel (w :: rest) ctx c =
      (Outcome.fault ("error checking health of worker " ++ w ++ ": " ++ m), ctx, c) :=
  cleanLoop_cons_abort wsKey p q fuel w rest (step_getfault_eq wsKey p q fuel w ctx c hf)

/-- Witness for C4: with a fault injected on `w1`'s heartbeat read, the sweep
over `[w1, w2]` aborts at once with the wrapped error and the untouched
client; in particular `w2` is never examined. -/
theorem cleanLoop_heartbeat_fault_witness :
    cleanLoop (RKey.str "ws") (RKey.str "p") (RKey.str "q") 10 ["w1", "w2"] none
        demoClientHbFault =
      (Outcome.fault "error checking health of worker w1: boom", none,
        demoClientHbFault) :=
  cleanLoop_heartbeat_fault (RKey.str "ws") (RKey.str "p") (RKey.str "q") 10 "w1"
    ["w2"] none demoClientHbFault "boom" rfl

/-- C6: whenever `drainQueue` returns the cancellation outcome, the source and
destination queues reflect a whole number of completed moves: the original
source S splits as P ++ Q with the source now holding exactly P, the
destination holding exactly Q in front of its old contents, and the move
counter equal to Q's length — no task is half-transferred, duplicated across
both queues, or absent from both.  This is forced by the code's shape: the
cancellation checkpoint sits before each atomic `RPOPLPUSH`, never between
its pop and its push. -/
theorem drainQueue_cancel_whole_moves (w : String) (src dst : RKey) (hsd : src ≠ dst)
    (fuel : Nat) (ctx ctx2 : Option Nat) (c c2 : Client) (n : Nat)
    (heq : drainQueue w src dst fuel ctx c = (Outcome.canceled, ctx2, c2, n)) :
    ∃ P Q, c.store.lists src = P ++ Q ∧ c2.store.lists src = P ∧
      c2.store.lists dst = Q ++ c.store.lists dst ∧ n = Q.length :=
  drain_decomp w src dst hsd fuel ctx c heq

/-- Witness for C6: with a context that allows exactly one checkpoint before
cancelling, draining `s = [a, b]` into `d = [c]` is cancelled after exactly
one whole move. -/
theorem drainQueue_cancel_whole_moves_witness :
    (drainQueue "w" (RKey.str "s") (RKey.str "d") 5 (some 1) drainDemoClient).1 =
      Outcome.canceled ∧
    ∃ P Q, drainDemoClient.store.lists (RKey.str "s") = P ++ Q ∧
      (drainQueue "w" (RKey.str "s") (RKey.str "d") 5 (some 1)
        drainDemoClient).2.2.1.store.lists (RKey.str "s") = P ∧
      (drainQueue "w" (RKey.str "s") (RKey.str "d") 5 (some 1)
        drainDemoClient).2.2.1.store.lists (RKey.str "d") =
        Q ++ drainDemoClient.store.lists (RKey.str "d") ∧
      (drainQueue "w" (RKey.str "s") (RKey.str "d") 5 (some 1)
        drainDemoClient).2.2.2 = Q.length :=
  ⟨rfl,
    drainQueue_cancel_whole_moves "w" (RKey.str "s") (RKey.str "d") (by decide) 5
      (some 1)
      (drainQueue "w" (RKey.str "s") (RKey.str "d") 5 (some 1) drainDemoClient).2.1
      drainDemoClient
      (drainQueue "w" (RKey.str "s") (RKey.str "d") 5 (some 1) drainDemoClient).2.2.1
      (drainQueue "w" (RKey.str "s") (RKey.str "d") 5 (some 1) drainDemoClient).2.2.2
      rfl⟩

/-- C10, counterexample: `drainQueue` does not terminate on every input.
With the source and destination being the same queue `s = [t]`, the
`RPOPLPUSH` of an iteration succeeds (so the loop neither returns nor hits
the distinguished empty outcome) yet rotates the list in place, leaving its
length unchanged — so no fuel is ever enough, refuting both "each loop
iteration either returns or strictly decreases the length of the source" and
termination on every input. -/
theorem drainQueue_same_queue_cex :
    rotClient.store.lists (RKey.str "s") = ["t"] ∧
    (rotClient.rpoplpush (RKey.str "s") (RKey.str "s")).1 = RedisResult.ok "t" ∧
    ((rotClient.rpoplpush (RKey.str "s") (RKey.str "s")).2.store.lists
        (RKey.str "s")).length =
      (rotClient.store.lists (RKey.str "s")).length ∧
    (drainQueue "w" (RKey.str "s") (RKey.str "s") 9 none rotClient).1 =
      Outcome.outOfFuel := by
  exact ⟨rfl, rfl, rfl, rfl⟩

/-- C10, amended: whenever the source and destination queues are distinct and
the move primitive has no fault configured for them, `drainQueue` terminates:
with fuel exceeding the source length and no cancellation it returns the
successful outcome after exactly length-of-source moves (each iteration pops
one element from the source, strictly decreasing its length). -/
theorem drainQueue_terminates (w : String) (src dst : RKey) (hsd : src ≠ dst)
    (c : Client) (hmf : c.moveFaults src dst = none) (fuel : Nat)
    (hfuel : (c.store.lists src).length < fuel) :
    ∃ c2, drainQueue w src dst fuel none c =
      (Outcome.ok, none, c2, (c.store.lists src).length) :=
  drain_terminates_aux w src dst hsd fuel c hmf hfuel

/-- Witness for C10's amended statement: draining `s = [a, b]` into the
distinct queue `d` with fuel 3 returns the successful outcome after exactly
2 moves. -/
theorem drainQueue_terminates_witness :
    ∃ c2, drainQueue "w" (RKey.str "s") (RKey.str "d") 3 none drainDemoClient =
      (Outcome.ok, none, c2, 2) :=
  drainQueue_terminates "w" (RKey.str "s") (RKey.str "d") (by decide)
    drainDemoClient rfl 3 (by decide)

/-- C8: for an ID with no stored record, `GetInstance` and `GetBinding`
report `found = false` with a nil error, `DeleteInstance` and `DeleteBinding`
report `deleted = false` with a nil error, and the store state is unchanged
(the reads are pure and the deletes return the input state untouched). -/
theorem store_not_found (cat : Catalog) (st : SStore) (id : String)
    (hi : st.kv (SKey.instanceKey id) = none)
    (hb : st.kv (SKey.bindingKey id) = none) :
    GetInstance cat st id = (Instance.empty, false, none) ∧
    GetBinding cat st id = (Binding.empty, false, none) ∧
    DeleteInstance st id = ((false, none), st) ∧
    DeleteBinding st id = ((false, none), st) := by
  refine ⟨?_, ?_, ?_, ?_⟩
  · unfold GetInstance
    rw [hi]
  · unfold GetBinding
    rw [hb]
  · unfold DeleteInstance
    rw [hi]
  · unfold DeleteBinding
    rw [hb]

/-- Witness for C8: the empty storage state holds nothing under `nope`. -/
theorem store_not_found_witness :
    GetInstance demoCatalog emptySStore "nope" = (Instance.empty, false, none) ∧
    GetBinding demoCatalog emptySStore "nope" = (Binding.empty, false, none) ∧
    DeleteInstance emptySStore "nope" = ((false, none), emptySStore) ∧
    DeleteBinding emptySStore "nope" = ((false, none), emptySStore) :=
  store_not_found demoCatalog emptySStore "nope" rfl rfl

/-- C9: a stored instance whose service ID is absent from the supplied
catalog, or whose plan ID is absent from that service, makes `GetInstance`
return `found = false` together with a non-nil error, and a stored binding
with an unknown service ID does the same for `GetBinding`; the dangling
reference is surfaced, never repaired (the reads are pure, so the store is
untouched). -/
theorem store_referential_integrity (cat : Catalog) (st : SStore) (id : String)
    (inst : Instance) (bnd : Binding) :
    (st.kv (SKey.instanceKey id) = some (StoredVal.inst inst) →
      cat.GetService inst.serviceID = none →
      (GetInstance cat st id).2.1 = false ∧ (GetInstance cat st id).2.2 ≠ none) ∧
    (∀ svc, st.kv (SKey.instanceKey id) = some (StoredVal.inst inst) →
      cat.GetService inst.serviceID = some svc →
      svc.GetPlan inst.planID = none →
      (GetInstance cat st id).2.1 = false ∧ (GetInstance cat st id).2.2 ≠ none) ∧
    (st.kv (SKey.bindingKey id) = some (StoredVal.bind bnd) →
      cat.GetService bnd.serviceID = none →
      (GetBinding cat st id).2.1 = false ∧ (GetBinding cat st id).2.2 ≠ none) := by
  refine ⟨?_, ?_, ?_⟩
  · intro h1 h2
    unfold GetInstance
    rw [h1]
    simp only [decodeInstance, h2]
    constructor <;> simp
  · intro svc h1 h2 h3
    unfold GetInstance
    rw [h1]
    simp only [decodeInstance, h2, h3]
    constructor <;> simp
  · intro h1 h2
    unfold GetBinding
    rw [h1]
    simp only [decodeBinding, h2]
    constructor <;> simp

/-- Witness for C9: in `demoSStore` against `demoCatalog`, the instance
`i1` (unknown service), the instance `i2` (unknown plan) and the binding
`b1` (unknown service) each read back as not-found-in-catalog errors with
`found = false`. -/
theorem store_referential_integrity_witness :
    ((GetInstance demoCatalog demoSStore "i1").2.1 = false ∧
      (GetInstance demoCatalog demoSStore "i1").2.2 ≠ none) ∧
    ((GetInstance demoCatalog demoSStore "i2").2.1 = false ∧
      (GetInstance demoCatalog demoSStore "i2").2.2 ≠ none) ∧
    ((GetBinding demoCatalog demoSStore "b1").2.1 = false ∧
      (GetBinding demoCatalog demoSStore "b1").2.2 ≠ none) :=
  ⟨(store_referential_integrity demoCatalog demoSStore "i1" demoInstGhostSvc
      demoBindGhost).1 rfl rfl,
    (store_referential_integrity demoCatalog demoSStore "i2" demoInstGhostPlan
      demoBindGhost).2.1 ⟨"svc1", [⟨"plan1"⟩]⟩ rfl rfl rfl,
    (store_referential_integrity demoCatalog demoSStore "b1" demoInstGhostSvc
      demoBindGhost).2.2 rfl rfl⟩



/-- C1: for every worker in the worker set whose heartbeat key is absent, a
`clean` call that returns the successful outcome (so it met neither a store
error nor cancellation; the defensive `redis.Nil`-from-`SMEMBERS` branch,
which real redis does not produce for `SMEMBERS`, is excluded by hypothesis,
and the worker set — a redis set — is duplicate-free) leaves every task that
was in that worker's active queue present in the pending queue and every task
that was in its watched queue present in the deferred queue, leaves both of
the worker's queues empty, and removes the worker ID from the worker set. -/
theorem clean_reclaims_dead_worker (ws2 ps qs w : String) (fuel : Nat)
    (ctx ctx' : Option Nat) (c c' : Client)
    (hnil : c.smembersNil = false)
    (hnd : (c.store.sets (RKey.str ws2)).Nodup)
    (hmem : w ∈ c.store.sets (RKey.str ws2))
    (hdead : c.store.kv (getHeartbeatKey w) = none)
    (hok : clean (RKey.str ws2) (RKey.str ps) (RKey.str qs) fuel ctx c =
      (Outcome.ok, ctx', c')) :
    (∀ t, t ∈ c.store.lists (getActiveTaskQueueName w) →
      t ∈ c'.store.lists (RKey.str ps)) ∧
    (∀ t, t ∈ c.store.lists (getWatchedTaskQueueName w) →
      t ∈ c'.store.lists (RKey.str qs)) ∧
    c'.store.lists (getActiveTaskQueueName w) = [] ∧
    c'.store.lists (getWatchedTaskQueueName w) = [] ∧
    w ∉ c'.store.sets (RKey.str ws2) := by
  cases hf : c.smembersFault with
  | some m =>
    rw [clean_smembers_fault_eq (RKey.str ws2) (RKey.str ps) (RKey.str qs)
      fuel ctx c hnil hf] at hok
    cases hok
  | none =>
    rw [clean_loop_eq (RKey.str ws2) (RKey.str ps) (RKey.str qs)
      fuel ctx c hnil hf] at hok
    exact loop_dead (RKey.str ws2) ps qs fuel w (c.store.sets (RKey.str ws2))
      ctx c hok hnd hmem hdead

/-- Witness for C1: in the demo state, `w1` is dead with active queue
`[t1, t2]` and watched queue `[t3]`; after `clean` both tasks sit in the
pending queue, `t3` sits in the deferred queue, `w1`'s queues are empty and
`w1` has left the worker set. -/
theorem clean_reclaims_dead_worker_witness :
    (∀ t, t ∈ demoClient.store.lists (getActiveTaskQueueName "w1") →
      t ∈ (clean (RKey.str "ws") (RKey.str "p") (RKey.str "q") 10 none
        demoClient).2.2.store.lists (RKey.str "p")) ∧
    (∀ t, t ∈ demoClient.store.lists (getWatchedTaskQueueName "w1") →
      t ∈ (clean (RKey.str "ws") (RKey.str "p") (RKey.str "q") 10 none
        demoClient).2.2.store.lists (RKey.str "q")) ∧
    (clean (RKey.str "ws") (RKey.str "p") (RKey.str "q") 10 none
      demoClient).2.2.store.lists (getActiveTaskQueueName "w1") = [] ∧
    (clean (RKey.str "ws") (RKey.str "p") (RKey.str "q") 10 none
      demoClient).2.2.store.lists (getWatchedTaskQueueName "w1") = [] ∧
    "w1" ∉ (clean (RKey.str "ws") (RKey.str "p") (RKey.str "q") 10 none
      demoClient).2.2.store.sets (RKey.str "ws") :=
  clean_reclaims_dead_worker "ws" "p" "q" "w1" 10 none
    (clean (RKey.str "ws") (RKey.str "p") (RKey.str "q") 10 none demoClient).2.1
    demoClient
    (clean (RKey.str "ws") (RKey.str "p") (RKey.str "q") 10 none demoClient).2.2
    rfl (by decide) (by decide) rfl rfl

/-- C3: a worker whose heartbeat key exists in the store is untouched by any
`clean` call, whatever its outcome: its active queue, its watched queue and
its membership in the worker set are exactly as before, regardless of the
contents of its queues. -/
theorem clean_live_worker_untouched (ws2 ps qs w v : String) (fuel : Nat)
    (ctx ctx' : Option Nat) (c c' : Client) (o : Outcome)
    (halive : c.store.kv (getHeartbeatKey w) = some v)
    (hres : clean (RKey.str ws2) (RKey.str ps) (RKey.str qs) fuel ctx c =
      (o, ctx', c')) :
    c'.store.lists (getActiveTaskQueueName w) =
      c.store.lists (getActiveTaskQueueName w) ∧
    c'.store.lists (getWatchedTaskQueueName w) =
      c.store.lists (getWatchedTaskQueueName w) ∧
    (w ∈ c'.store.sets (RKey.str ws2) ↔ w ∈ c.store.sets (RKey.str ws2)) := by
  cases hnil : c.smembersNil with
  | true =>
    rw [clean_smembers_nil_eq (RKey.str ws2) (RKey.str ps) (RKey.str qs)
      fuel ctx c hnil] at hres
    cases hres
    exact ⟨rfl, rfl, Iff.rfl⟩
  | false =>
    cases hf : c.smembersFault with
    | some m =>
      rw [clean_smembers_fault_eq (RKey.str ws2) (RKey.str ps) (RKey.str qs)
        fuel ctx c hnil hf] at hres
      cases hres
      exact ⟨rfl, rfl, Iff.rfl⟩
    | none =>
      rw [clean_loop_eq (RKey.str ws2) (RKey.str ps) (RKey.str qs)
        fuel ctx c hnil hf] at hres
      exact loop_alive (RKey.str ws2) ps qs fuel w v (c.store.sets (RKey.str ws2))
        ctx c hres halive

/-- Witness for C3: in the demo state, `w2` is alive (heartbeat present) with
active queue `[t4]`; after `clean`, its queues and worker-set membership are
unchanged even though the dead `w1` was reclaimed. -/
theorem clean_live_worker_untouched_witness :
    (clean (RKey.str "ws") (RKey.str "p") (RKey.str "q") 10 none
      demoClient).2.2.store.lists (getActiveTaskQueueName "w2") =
      demoClient.store.lists (getActiveTaskQueueName "w2") ∧
    (clean (RKey.str "ws") (RKey.str "p") (RKey.str "q") 10 none
      demoClient).2.2.store.lists (getWatchedTaskQueueName "w2") =
      demoClient.store.lists (getWatchedTaskQueueName "w2") ∧
    ("w2" ∈ (clean (RKey.str "ws") (RKey.str "p") (RKey.str "q") 10 none
      demoClient).2.2.store.sets (RKey.str "ws") ↔
      "w2" ∈ demoClient.store.sets (RKey.str "ws")) :=
  clean_live_worker_untouched "ws" "p" "q" "w2" "hb" 10 none
    (clean (RKey.str "ws") (RKey.str "p") (RKey.str "q") 10 none demoClient).2.1
    demoClient
    (clean (RKey.str "ws") (RKey.str "p") (RKey.str "q") 10 none demoClient).2.2
    (clean (RKey.str "ws") (RKey.str "p") (RKey.str "q") 10 none demoClient).1
    rfl rfl

/-- C5: running `clean` to successful completion and then running it again,
with no store changes in between, leaves the client after the second run
equal to the client after the first run — the second run performs no moves
and no removals (whatever fuel and cancellation budget the second run gets,
and whatever outcome it reports).  The worker set, a redis set, is assumed
duplicate-free. -/
theorem clean_idempotent (ws2 ps qs : String) (fuel fuel2 : Nat)
    (ctx ctx' ctx2 ctx'' : Option Nat) (c c' c'' : Client) (o : Outcome)
    (hnd : (c.store.sets (RKey.str ws2)).Nodup)
    (h1 : clean (RKey.str ws2) (RKey.str ps) (RKey.str qs) fuel ctx c =
      (Outcome.ok, ctx', c'))
    (h2 : clean (RKey.str ws2) (RKey.str ps) (RKey.str qs) fuel2 ctx2 c' =
      (o, ctx'', c'')) :
    c'' = c' := by
  cases hnil : c.smembersNil with
  | true =>
    rw [clean_smembers_nil_eq (RKey.str ws2) (RKey.str ps) (RKey.str qs)
      fuel ctx c hnil] at h1
    cases h1
    rw [clean_smembers_nil_eq (RKey.str ws2) (RKey.str ps) (RKey.str qs)
      fuel2 ctx2 c hnil] at h2
    cases h2
    rfl
  | false =>
    cases hf : c.smembersFault with
    | some m =>
      rw [clean_smembers_fault_eq (RKey.str ws2) (RKey.str ps) (RKey.str qs)
        fuel ctx c hnil hf] at h1
      cases h1
    | none =>
      rw [clean_loop_eq (RKey.str ws2) (RKey.str ps) (RKey.str qs)
        fuel ctx c hnil hf] at h1
      have hall := loop_ok_alive (RKey.str ws2) ps qs fuel
        (c.store.sets (RKey.str ws2)) ctx c h1 hnd (fun x hx => Or.inr hx)
      obtain ⟨-, -, -, -, -, -, -, P8, P9, -, -, -⟩ :=
        loop_post (RKey.str ws2) ps qs fuel "" (c.store.sets (RKey.str ws2))
          ctx c h1
      have hnil2 : c'.smembersNil = false := by
        rw [P8]
        exact hnil
      have hf2 : c'.smembersFault = none := by
        rw [P9]
        exact hf
      rw [clean_loop_eq (RKey.str ws2) (RKey.str ps) (RKey.str qs)
        fuel2 ctx2 c' hnil2 hf2] at h2
      have hnoop := loop_alive_noop (RKey.str ws2) (RKey.str ps) (RKey.str qs)
        fuel2 (c'.store.sets (RKey.str ws2)) ctx2 c' (fun x hx => hall x hx)
      rw [h2] at hnoop
      exact hnoop

/-- Witness for C5: cleaning the demo state once succeeds; cleaning the
result again returns it unchanged. -/
theorem clean_idempotent_witness :
    (clean (RKey.str "ws") (RKey.str "p") (RKey.str "q") 10 none
      (clean (RKey.str "ws") (RKey.str "p") (RKey.str "q") 10 none
        demoClient).2.2).2.2 =
      (clean (RKey.str "ws") (RKey.str "p") (RKey.str "q") 10 none
        demoClient).2.2 :=
  clean_idempotent "ws" "p" "q" 10 10 none
    (clean (RKey.str "ws") (RKey.str "p") (RKey.str "q") 10 none demoClient).2.1
    none
    (clean (RKey.str "ws") (RKey.str "p") (RKey.str "q") 10 none
      (clean (RKey.str "ws") (RKey.str "p") (RKey.str "q") 10 none
        demoClient).2.2).2.1
    demoClient
    (clean (RKey.str "ws") (RKey.str "p") (RKey.str "q") 10 none demoClient).2.2
    (clean (RKey.str "ws") (RKey.str "p") (RKey.str "q") 10 none
      (clean (RKey.str "ws") (RKey.str "p") (RKey.str "q") 10 none
        demoClient).2.2).2.2
    (clean (RKey.str "ws") (RKey.str "p") (RKey.str "q") 10 none
      (clean (RKey.str "ws") (RKey.str "p") (RKey.str "q") 10 none
        demoClient).2.2).1
    (by decide) rfl rfl

/-- C7: the worker loop, arriving at a dead worker (heartbeat absent, its
read fault-free, the worker still in the duplicate-free worker set), removes
that worker from the worker set only after both of its queue drains returned
without error: (i) if the active-queue drain reports a store fault the sweep
returns that fault with the worker still in the set; (ii) if the
watched-queue drain reports a store fault likewise; (iii) if both drains
succeed and the removal itself reports the member as already absent
(`redis.Nil`), the sweep treats that as success: it erases the member and
continues with the remaining workers. -/
theorem cleanLoop_removes_only_after_drains (ws2 ps qs w : String)
    (rest : List String) (fuel : Nat) (ctx : Option Nat) (c : Client)
    (hmem : w ∈ c.store.sets (RKey.str ws2))
    (hnd : (c.store.sets (RKey.str ws2)).Nodup)
    (hdead : c.store.kv (getHeartbeatKey w) = none)
    (hgf : c.getFaults (getHeartbeatKey w) = none) :
    (∀ m ctx1 c1 n1,
      drainQueue w (getActiveTaskQueueName w) (RKey.str ps) fuel ctx c =
        (Outcome.fault m, ctx1, c1, n1) →
      cleanLoop (RKey.str ws2) (RKey.str ps) (RKey.str qs) fuel (w :: rest) ctx c =
        (Outcome.fault m, ctx1, c1) ∧
      w ∈ c1.store.sets (RKey.str ws2)) ∧
    (∀ ctx1 c1 n1 m ctx2 c2 n2,
      drainQueue w (getActiveTaskQueueName w) (RKey.str ps) fuel ctx c =
        (Outcome.ok, ctx1, c1, n1) →
      drainQueue w (getWatchedTaskQueueName w) (RKey.str qs) fuel ctx1 c1 =
        (Outcome.fault m, ctx2, c2, n2) →
      cleanLoop (RKey.str ws2) (RKey.str ps) (RKey.str qs) fuel (w :: rest) ctx c =
        (Outcome.fault m, ctx2, c2) ∧
      w ∈ c2.store.sets (RKey.str ws2)) ∧
    (∀ ctx1 c1 n1 ctx2 c2 n2,
      drainQueue w (getActiveTaskQueueName w) (RKey.str ps) fuel ctx c =
        (Outcome.ok, ctx1, c1, n1) →
      drainQueue w (getWatchedTaskQueueName w) (RKey.str qs) fuel ctx1 c1 =
        (Outcome.ok, ctx2, c2, n2) →
      c.sremFaults w = none →
      c.sremNil w = true →
      ctx2 = none →
      cleanLoop (RKey.str ws2) (RKey.str ps) (RKey.str qs) fuel (w :: rest) ctx c =
        cleanLoop (RKey.str ws2) (RKey.str ps) (RKey.str qs) fuel rest none
          ({ c2 with store := c2.store.eraseSet (RKey.str ws2) w }) ∧
      w ∉ ({ c2 with store := c2.store.eraseSet (RKey.str ws2) w } : Client).store.sets
        (RKey.str ws2)) := by
  have hget : c.get (getHeartbeatKey w) = RedisResult.nil :=
    get_nil_of_dead c _ hgf hdead
  refine ⟨?_, ?_, ?_⟩
  · intro m ctx1 c1 n1 hd1
    have hstep := step_dead_drain1_abort (RKey.str ws2) (RKey.str ps) (RKey.str qs)
      fuel w hget hd1 (fun h2 => Outcome.noConfusion h2)
    obtain ⟨-, -, -, -, -, -, -, -, -, -, f11⟩ :=
      drain_frame_pack w (RKey.active w) ps (active_ne_str w ps) fuel ctx c hd1
    refine ⟨cleanLoop_cons_abort (RKey.str ws2) (RKey.str ps) (RKey.str qs)
      fuel w rest hstep, ?_⟩
    rw [f11]
    exact hmem
  · intro ctx1 c1 n1 m ctx2 c2 n2 hd1 hd2
    have hstep := step_dead_drain2_abort (RKey.str ws2) (RKey.str ps) (RKey.str qs)
      fuel w hget hd1 hd2 (fun h2 => Outcome.noConfusion h2)
    obtain ⟨-, -, -, -, -, -, -, -, -, -, f11⟩ :=
      drain_frame_pack w (RKey.active w) ps (active_ne_str w ps) fuel ctx c hd1
    obtain ⟨-, -, -, -, -, -, -, -, -, -, g11⟩ :=
      drain_frame_pack w (RKey.watched w) qs (watched_ne_str w qs) fuel ctx1 c1 hd2
    refine ⟨cleanLoop_cons_abort (RKey.str ws2) (RKey.str ps) (RKey.str qs)
      fuel w rest hstep, ?_⟩
    rw [g11, f11]
    exact hmem
  · intro ctx1 c1 n1 ctx2 c2 n2 hd1 hd2 hsf hsn hc2
    subst hc2
    obtain ⟨-, -, -, -, -, f6, f7, -, -, -, f11⟩ :=
      drain_frame_pack w (RKey.active w) ps (active_ne_str w ps) fuel ctx c hd1
    obtain ⟨-, -, -, -, -, g6, g7, -, -, -, g11⟩ :=
      drain_frame_pack w (RKey.watched w) qs (watched_ne_str w qs) fuel ctx1 c1 hd2
    have hsf2 : c2.sremFaults w = none := by
      rw [g6, f6]
      exact hsf
    have hsn2 : c2.sremNil w = true := by
      rw [g7, f7]
      exact hsn
    have hs : c2.srem (RKey.str ws2) w =
        (RedisResult.nil, { c2 with store := c2.store.eraseSet (RKey.str ws2) w }) := by
      unfold Client.srem
      rw [hsf2, if_pos hsn2]
    have hstep : cleanWorkerStep (RKey.str ws2) (RKey.str ps) (RKey.str qs) fuel w
        ctx c = StepRes.next none
          ({ c2 with store := c2.store.eraseSet (RKey.str ws2) w }) := by
      rw [step_dead_done (RKey.str ws2) (RKey.str ps) (RKey.str qs) fuel w hget
        hd1 hd2 hs (fun m2 h2 => RedisResult.noConfusion h2)]
      rfl
    refine ⟨?_, ?_⟩
    · exact cleanLoop_cons_next (RKey.str ws2) (RKey.str ps) (RKey.str qs)
        fuel w rest hstep
    · show w ∉ (c2.store.eraseSet (RKey.str ws2) w).sets (RKey.str ws2)
      rw [eraseSet_sets_eq, g11, f11]
      intro hmem2
      exact ((List.Nodup.mem_erase_iff hnd).mp hmem2).1 rfl

/-- Witness for C7: in the demo state with a move fault on `w1`'s active
drain and `SREM` configured to report `w1` as already absent, the theorem's
three guarantees hold for `w1` at the head of the enumeration `[w1, w2]`. -/
theorem cleanLoop_removes_only_after_drains_witness :
    (∀ m ctx1 c1 n1,
      drainQueue "w1" (getActiveTaskQueueName "w1") (RKey.str "p") 10 none
        demoClientDrainFault = (Outcome.fault m, ctx1, c1, n1) →
      cleanLoop (RKey.str "ws") (RKey.str "p") (RKey.str "q") 10 ["w1", "w2"] none
        demoClientDrainFault = (Outcome.fault m, ctx1, c1) ∧
      "w1" ∈ c1.store.sets (RKey.str "ws")) ∧
    (∀ ctx1 c1 n1 m ctx2 c2 n2,
      drainQueue "w1" (getActiveTaskQueueName "w1") (RKey.str "p") 10 none
        demoClientDrainFault = (Outcome.ok, ctx1, c1, n1) →
      drainQueue "w1" (getWatchedTaskQueueName "w1") (RKey.str "q") 10 ctx1 c1 =
        (Outcome.fault m, ctx2, c2, n2) →
      cleanLoop (RKey.str "ws") (RKey.str "p") (RKey.str "q") 10 ["w1", "w2"] none
        demoClientDrainFault = (Outcome.fault m, ctx2, c2) ∧
      "w1" ∈ c2.store.sets (RKey.str "ws")) ∧
    (∀ ctx1 c1 n1 ctx2 c2 n2,
      drainQueue "w1" (getActiveTaskQueueName "w1") (RKey.str "p") 10 none
        demoClientDrainFault = (Outcome.ok, ctx1, c1, n1) →
      drainQueue "w1" (getWatchedTaskQueueName "w1") (RKey.str "q") 10 ctx1 c1 =
        (Outcome.ok, ctx2, c2, n2) →
      demoClientDrainFault.sremFaults "w1" = none →
      demoClientDrainFault.sremNil "w1" = true →
      ctx2 = none →
      cleanLoop (RKey.str "ws") (RKey.str "p") (RKey.str "q") 10 ["w1", "w2"] none
        demoClientDrainFault =
        cleanLoop (RKey.str "ws") (RKey.str "p") (RKey.str "q") 10 ["w2"] none
          ({ c2 with store := c2.store.eraseSet (RKey.str "ws") "w1" }) ∧
      "w1" ∉ ({ c2 with store := c2.store.eraseSet (RKey.str "ws") "w1" } :
        Client).store.sets (RKey.str "ws")) :=
  cleanLoop_removes_only_after_drains "ws" "p" "q" "w1" ["w2"] 10 none
    demoClientDrainFault (by decide) (by decide) rfl rfl


end Osba
